import Mathlib

/-!
Verification development for the reproq-django task queue.

The Python sources are shallowly embedded: pure functions from
`reproq_django/serialization.py`, `reproq_django/db.py`,
`reproq_django/backend.py`, `reproq_django/workflows.py` and the
`reproq` management command become Lean functions over explicit state;
database tables become lists of records; machine integers and
timestamps become `Int`/`Nat`.
-/

namespace Reproq

/-! ## JSON values

`canonical_json` in `serialization.py` serializes Python data with
`json.dumps(obj, sort_keys=True, separators=(",", ":"), ensure_ascii=False)`.
The value domain here covers null, booleans, integers, strings, lists
and string-keyed mappings (the JSON-serializable values the enqueue
path produces). Python dicts have unique keys; objects with duplicate
keys are outside the image of the embedding.
-/

inductive Json where
  | null : Json
  | bool (b : Bool) : Json
  | num (n : Int) : Json
  | str (s : String) : Json
  | arr (elems : List Json) : Json
  | obj (entries : List (String × Json)) : Json

/-- Stable sort of key-value pairs by key, ascending by code point:
`sorted(dct.items())` as performed by `json.dumps(..., sort_keys=True)`
(with unique keys the item comparison never inspects values). -/
def sortKV {α : Type} (l : List (String × α)) : List (String × α) :=
  l.insertionSort (fun a b => a.1 ≤ b.1)

instance {α : Type} : IsTotal (String × α) (fun a b => a.1 ≤ b.1) :=
  ⟨fun a b => le_total a.1 b.1⟩

instance {α : Type} : IsTrans (String × α) (fun a b => a.1 ≤ b.1) :=
  ⟨fun _ _ _ h h2 => le_trans h h2⟩

def hexChars : List Char := "0123456789abcdef".data

def hexDigitChar (n : Nat) : Char := hexChars.getD n '0'

/-- One character of a JSON string, escaped the way `json.dumps` with
`ensure_ascii=False` escapes it: backslash, double quote, and the
control characters below 0x20. -/
def escChar (c : Char) : List Char :=
  if c = '"' then ['\\', '"']
  else if c = '\\' then ['\\', '\\']
  else if c.toNat = 8 then ['\\', 'b']
  else if c.toNat = 9 then ['\\', 't']
  else if c.toNat = 10 then ['\\', 'n']
  else if c.toNat = 12 then ['\\', 'f']
  else if c.toNat = 13 then ['\\', 'r']
  else if c.toNat < 32 then
    ['\\', 'u', '0', '0', hexDigitChar (c.toNat / 16), hexDigitChar (c.toNat % 16)]
  else [c]

def escapeString (s : String) : List Char :=
  '"' :: (s.data.map escChar).flatten ++ ['"']

/-- Render one `key:value` item of an object (`separators=(",", ":")`:
no whitespace after the colon). -/
def renderItem (p : String × List Char) : List Char :=
  escapeString p.1 ++ ':' :: p.2

mutual

/-- The characters `json.dumps(obj, sort_keys=True, separators=(",", ":"),
ensure_ascii=False)` produces. Values of an object are serialized and the
items then sorted by key; as the comparison only inspects keys this
equals Python's sort-items-then-serialize order of operations. -/
def canonChars : Json → List Char
  | .null => "null".data
  | .bool true => "true".data
  | .bool false => "false".data
  | .num n => (toString n).data
  | .str s => escapeString s
  | .arr xs => '[' :: List.intercalate [','] (canonList xs) ++ [']']
  | .obj kvs =>
      Char.ofNat 123 :: List.intercalate [','] ((sortKV (canonItems kvs)).map renderItem)
        ++ [Char.ofNat 125]

def canonList : List Json → List (List Char)
  | [] => []
  | x :: xs => canonChars x :: canonList xs

def canonItems : List (String × Json) → List (String × List Char)
  | [] => []
  | kv :: kvs => (kv.1, canonChars kv.2) :: canonItems kvs

end

/-- `canonical_json` from `serialization.py`. -/
def canonical_json (x : Json) : String := String.mk (canonChars x)

mutual

/-- `normalize_json` from `serialization.py` is
`json.loads(canonical_json(obj))`: parsing the canonical output back
yields the same tree with every mapping's entries in ascending key
order, i.e. a recursive key sort on this value domain. -/
def normalizeJson : Json → Json
  | .null => .null
  | .bool b => .bool b
  | .num n => .num n
  | .str s => .str s
  | .arr xs => .arr (normalizeList xs)
  | .obj kvs => .obj (sortKV (normalizeKVs kvs))

def normalizeList : List Json → List Json
  | [] => []
  | x :: xs => normalizeJson x :: normalizeList xs

def normalizeKVs : List (String × Json) → List (String × Json)
  | [] => []
  | kv :: kvs => (kv.1, normalizeJson kv.2) :: normalizeKVs kvs

end

def normalize_json (x : Json) : Json := normalizeJson x

/-! ## SHA-256

`spec_hash_for` is `hashlib.sha256(canonical_json(spec).encode("utf-8")).hexdigest()`.
SHA-256 (FIPS 180-4) over byte lists, with 32-bit words as `Nat` values
reduced modulo `2^32`.
-/

def w32 (n : Nat) : Nat := n % 4294967296

def rotr (n x : Nat) : Nat :=
  w32 (Nat.lor (Nat.shiftRight x n) (Nat.shiftLeft x (32 - n)))

def xor3 (a b c : Nat) : Nat := Nat.xor (Nat.xor a b) c

def bigSigma0 (x : Nat) : Nat := xor3 (rotr 2 x) (rotr 13 x) (rotr 22 x)

def bigSigma1 (x : Nat) : Nat := xor3 (rotr 6 x) (rotr 11 x) (rotr 25 x)

def smallSigma0 (x : Nat) : Nat := xor3 (rotr 7 x) (rotr 18 x) (Nat.shiftRight x 3)

def smallSigma1 (x : Nat) : Nat := xor3 (rotr 17 x) (rotr 19 x) (Nat.shiftRight x 10)

def chFn (x y z : Nat) : Nat :=
  Nat.xor (Nat.land x y) (Nat.land (Nat.xor x 4294967295) z)

def majFn (x y z : Nat) : Nat :=
  xor3 (Nat.land x y) (Nat.land x z) (Nat.land y z)

def sha256K : List Nat :=
  [1116352408, 1899447441, 3049323471, 3921009573, 961987163, 1508970993,
   2453635748, 2870763221, 3624381080, 310598401, 607225278, 1426881987,
   1925078388, 2162078206, 2614888103, 3248222580, 3835390401, 4022224774,
   264347078, 604807628, 770255983, 1249150122, 1555081692, 1996064986,
   2554220882, 2821834349, 2952996808, 3210313671, 3336571891, 3584528711,
   113926993, 338241895, 666307205, 773529912, 1294757372, 1396182291,
   1695183700, 1986661051, 2177026350, 2456956037, 2730485921, 2820302411,
   3259730800, 3345764771, 3516065817, 3600352804, 4094571909, 275423344,
   430227734, 506948616, 659060556, 883997877, 958139571, 1322822218,
   1537002063, 1747873779, 1955562222, 2024104815, 2227730452, 2361852424,
   2428436474, 2756734187, 3204031479, 3329325298]

structure Hash8 where
  a : Nat
  b : Nat
  c : Nat
  d : Nat
  e : Nat
  f : Nat
  g : Nat
  h : Nat

def compressStep (st : Hash8) (k w : Nat) : Hash8 :=
  let t1 := w32 (st.h + bigSigma1 st.e + chFn st.e st.f st.g + k + w)
  let t2 := w32 (bigSigma0 st.a + majFn st.a st.b st.c)
  ⟨w32 (t1 + t2), st.a, st.b, st.c, w32 (st.d + t1), st.e, st.f, st.g⟩

def compressRounds : List (Nat × Nat) → Hash8 → Hash8
  | [], st => st
  | kw :: rest, st => compressRounds rest (compressStep st kw.1 kw.2)

def words16 : List Nat → List Nat
  | b0 :: b1 :: b2 :: b3 :: rest =>
      (((b0 * 256 + b1) * 256 + b2) * 256 + b3) :: words16 rest
  | _ => []

def extendStep (w : List Nat) : List Nat :=
  let n := w.length
  w ++ [w32 (w.getD (n - 16) 0 + smallSigma0 (w.getD (n - 15) 0) +
             w.getD (n - 7) 0 + smallSigma1 (w.getD (n - 2) 0))]

def extendTimes : Nat → List Nat → List Nat
  | 0, w => w
  | k + 1, w => extendTimes k (extendStep w)

def scheduleOf (block : List Nat) : List Nat := extendTimes 48 (words16 block)

def compressBlock (st : Hash8) (block : List Nat) : Hash8 :=
  let r := compressRounds (sha256K.zip (scheduleOf block)) st
  ⟨w32 (st.a + r.a), w32 (st.b + r.b), w32 (st.c + r.c), w32 (st.d + r.d),
   w32 (st.e + r.e), w32 (st.f + r.f), w32 (st.g + r.g), w32 (st.h + r.h)⟩

def beBytes8 (n : Nat) : List Nat :=
  [n / 72057594037927936 % 256, n / 281474976710656 % 256, n / 1099511627776 % 256,
   n / 4294967296 % 256, n / 16777216 % 256, n / 65536 % 256, n / 256 % 256, n % 256]

def padMessage (msg : List Nat) : List Nat :=
  let l := msg.length
  let k := (64 + 56 - (l + 1) % 64) % 64
  msg ++ 128 :: List.replicate k 0 ++ beBytes8 (l * 8)

def chunks64F : Nat → List Nat → List (List Nat)
  | _, [] => []
  | 0, _ :: _ => []
  | fuel + 1, x :: rest => (x :: rest).take 64 :: chunks64F fuel ((x :: rest).drop 64)

/-- Split into 64-byte blocks (the fuel only bounds the recursion depth
and is always sufficient, keeping the definition structurally
recursive and hence kernel-evaluable). -/
def chunks64 (l : List Nat) : List (List Nat) := chunks64F l.length l

def sha256Init : Hash8 :=
  ⟨1779033703, 3144134277, 1013904242, 2773480762,
   1359893119, 2600822924, 528734635, 1541459225⟩

def sha256Words (msg : List Nat) : Hash8 :=
  (chunks64 (padMessage msg)).foldl compressBlock sha256Init

def hexWordChars (w : Nat) : List Char :=
  [hexDigitChar (w / 268435456 % 16), hexDigitChar (w / 16777216 % 16),
   hexDigitChar (w / 1048576 % 16), hexDigitChar (w / 65536 % 16),
   hexDigitChar (w / 4096 % 16), hexDigitChar (w / 256 % 16),
   hexDigitChar (w / 16 % 16), hexDigitChar (w % 16)]

def sha256HexChars (msg : List Nat) : List Char :=
  let s := sha256Words msg
  hexWordChars s.a ++ hexWordChars s.b ++ hexWordChars s.c ++ hexWordChars s.d ++
  hexWordChars s.e ++ hexWordChars s.f ++ hexWordChars s.g ++ hexWordChars s.h

/-- UTF-8 bytes of one code point (`str.encode("utf-8")`). -/
def utf8Char (c : Char) : List Nat :=
  let n := c.toNat
  if n < 128 then [n]
  else if n < 2048 then [192 + n / 64, 128 + n % 64]
  else if n < 65536 then [224 + n / 4096, 128 + n / 64 % 64, 128 + n % 64]
  else [240 + n / 262144, 128 + n / 4096 % 64, 128 + n / 64 % 64, 128 + n % 64]

def utf8Bytes (cs : List Char) : List Nat := (cs.map utf8Char).flatten

/-- `spec_hash_for` from `serialization.py`: SHA-256 of the canonical
UTF-8 bytes, lowercase hex digest. -/
def spec_hash_for (x : Json) : String :=
  String.mk (sha256HexChars (utf8Bytes (canonChars x)))

/-- `normalize_and_hash` from `serialization.py`. -/
def normalize_and_hash (x : Json) : Json × String :=
  (normalize_json x, spec_hash_for x)

/-! ## Canonicalization lemmas (claim C4) -/

theorem canonList_eq_map (xs : List Json) : canonList xs = xs.map canonChars := by
  induction xs with
  | nil => rfl
  | cons x xs ih => simp [canonList, ih]

theorem canonItems_eq_map (kvs : List (String × Json)) :
    canonItems kvs = kvs.map (fun kv => (kv.1, canonChars kv.2)) := by
  induction kvs with
  | nil => rfl
  | cons kv kvs ih => simp [canonItems, ih]

theorem normalizeList_eq_map (xs : List Json) : normalizeList xs = xs.map normalizeJson := by
  induction xs with
  | nil => rfl
  | cons x xs ih => simp [normalizeList, ih]

theorem normalizeKVs_eq_map (kvs : List (String × Json)) :
    normalizeKVs kvs = kvs.map (fun kv => (kv.1, normalizeJson kv.2)) := by
  induction kvs with
  | nil => rfl
  | cons kv kvs ih => simp [normalizeKVs, ih]

theorem sortKV_perm {α : Type} (l : List (String × α)) : List.Perm (sortKV l) l :=
  List.perm_insertionSort _ l

theorem sortKV_sorted {α : Type} (l : List (String × α)) :
    (sortKV l).Sorted (fun a b => a.1 ≤ b.1) :=
  List.sorted_insertionSort _ l

theorem sortKV_idem {α : Type} (l : List (String × α)) : sortKV (sortKV l) = sortKV l :=
  (sortKV_sorted l).insertionSort_eq

/-- Sorting by key commutes with mapping over the values. -/
theorem sortKV_map {α β : Type} (g : α → β) (l : List (String × α)) :
    sortKV (l.map (fun kv => (kv.1, g kv.2))) = (sortKV l).map (fun kv => (kv.1, g kv.2)) := by
  unfold sortKV
  exact (List.map_insertionSort (fun a b : String × α => a.1 ≤ b.1)
    (fun a b : String × β => a.1 ≤ b.1) (fun kv => (kv.1, g kv.2)) l
    (fun _ _ _ _ => Iff.rfl)).symm

/-- Two permuted key-value lists with pairwise-distinct keys sort to the
same list. -/
theorem sortKV_eq_of_perm {α : Type} {l₁ l₂ : List (String × α)}
    (hp : List.Perm l₁ l₂) (hnd : (l₁.map Prod.fst).Nodup) : sortKV l₁ = sortKV l₂ := by
  haveI : IsAntisymm (String × α) (fun a b => a.1 < b.1) :=
    ⟨fun a b h1 h2 => absurd (lt_trans h1 h2) (lt_irrefl _)⟩
  have hperm : List.Perm (sortKV l₁) (sortKV l₂) :=
    ((sortKV_perm l₁).trans hp).trans (sortKV_perm l₂).symm
  have hstrict : ∀ (l : List (String × α)), (l.map Prod.fst).Nodup →
      (sortKV l).Sorted (fun a b => a.1 < b.1) := by
    intro l hl
    have hnd' : ((sortKV l).map Prod.fst).Nodup :=
      (((sortKV_perm l).map Prod.fst).nodup_iff).mpr hl
    have hne : (sortKV l).Pairwise (fun a b => a.1 ≠ b.1) :=
      (List.pairwise_map).mp hnd'
    exact ((sortKV_sorted l).and hne).imp (fun hab => lt_of_le_of_ne hab.1 hab.2)
  have hnd₂ : (l₂.map Prod.fst).Nodup := ((hp.map Prod.fst).nodup_iff).mp hnd
  exact List.eq_of_perm_of_sorted hperm (hstrict l₁ hnd) (hstrict l₂ hnd₂)

/-- A stable sort leaves an already weakly-sorted list unchanged, hence
sorting is idempotent on normalized objects. -/
theorem sortKV_sorted_eq {α : Type} {l : List (String × α)}
    (h : l.Sorted (fun a b => a.1 ≤ b.1)) : sortKV l = l :=
  h.insertionSort_eq

def distinctKeys : List String → Bool
  | [] => true
  | k :: ks => (!ks.contains k) && distinctKeys ks

theorem distinctKeys_iff_nodup (ks : List String) : distinctKeys ks = true ↔ ks.Nodup := by
  induction ks with
  | nil => simp [distinctKeys]
  | cons k ks ih => simp [distinctKeys, ih, List.elem_iff]

mutual

/-- Every mapping in the value, at any depth, has pairwise-distinct
keys. This always holds for values coming from Python dicts. -/
def nodupKeysB : Json → Bool
  | .null => true
  | .bool _ => true
  | .num _ => true
  | .str _ => true
  | .arr xs => nodupKeysList xs
  | .obj kvs => distinctKeys (kvs.map Prod.fst) && nodupKeysKVs kvs

def nodupKeysList : List Json → Bool
  | [] => true
  | x :: xs => nodupKeysB x && nodupKeysList xs

def nodupKeysKVs : List (String × Json) → Bool
  | [] => true
  | kv :: kvs => nodupKeysB kv.2 && nodupKeysKVs kvs

end

theorem nodupKeysList_mem {xs : List Json} (h : nodupKeysList xs = true) :
    ∀ x ∈ xs, nodupKeysB x = true := by
  induction xs with
  | nil => intro x hx; cases hx
  | cons y ys ih =>
    intro x hx
    simp only [nodupKeysList, Bool.and_eq_true] at h
    rcases List.mem_cons.mp hx with hx | hx
    · exact hx ▸ h.1
    · exact ih h.2 x hx

theorem nodupKeysKVs_mem {kvs : List (String × Json)} (h : nodupKeysKVs kvs = true) :
    ∀ kv ∈ kvs, nodupKeysB kv.2 = true := by
  induction kvs with
  | nil => intro kv hkv; cases hkv
  | cons p ps ih =>
    intro kv hkv
    simp only [nodupKeysKVs, Bool.and_eq_true] at h
    rcases List.mem_cons.mp hkv with hkv | hkv
    · exact hkv ▸ h.1
    · exact ih h.2 kv hkv

/-- Structural induction for the nested `Json` type, with member
hypotheses for arrays and objects. -/
def jsonInd (P : Json → Prop)
    (h1 : P .null) (h2 : ∀ b, P (.bool b)) (h3 : ∀ n, P (.num n)) (h4 : ∀ s, P (.str s))
    (h5 : ∀ xs, (∀ x ∈ xs, P x) → P (.arr xs))
    (h6 : ∀ kvs, (∀ kv ∈ kvs, P kv.2) → P (.obj kvs)) : ∀ x, P x
  | .null => h1
  | .bool b => h2 b
  | .num n => h3 n
  | .str s => h4 s
  | .arr xs => h5 xs (fun x hx =>
      have : sizeOf x < 1 + sizeOf xs := by
        have := List.sizeOf_lt_of_mem hx
        omega
      jsonInd P h1 h2 h3 h4 h5 h6 x)
  | .obj kvs => h6 kvs (fun kv hkv =>
      have : sizeOf kv.2 < 1 + sizeOf kvs := by
        have h := List.sizeOf_lt_of_mem hkv
        have h2 : sizeOf kv.2 < sizeOf kv := by
          cases kv; simp
        omega
      jsonInd P h1 h2 h3 h4 h5 h6 kv.2)
termination_by x => sizeOf x

/-- Serializing the normalized form gives the canonical string again:
the key sort performed during serialization is idempotent. -/
theorem canonChars_normalize : ∀ x, canonChars (normalizeJson x) = canonChars x := by
  refine jsonInd _ rfl (fun b => ?_) (fun _ => rfl) (fun _ => rfl)
    (fun xs ih => ?_) (fun kvs ih => ?_)
  · cases b <;> rfl
  · simp only [normalizeJson, canonChars, canonList_eq_map, normalizeList_eq_map,
      List.map_map]
    have hmap : List.map (canonChars ∘ normalizeJson) xs = List.map canonChars xs :=
      List.map_congr_left (fun a ha => ih a ha)
    rw [hmap]
  · simp only [normalizeJson, canonChars, canonItems_eq_map, normalizeKVs_eq_map]
    rw [← sortKV_map, sortKV_idem, List.map_map]
    have : (kvs.map ((fun kv : String × Json => (kv.1, canonChars kv.2)) ∘
        (fun kv : String × Json => (kv.1, normalizeJson kv.2)))) =
        kvs.map (fun kv => (kv.1, canonChars kv.2)) :=
      List.map_congr_left (fun kv hkv => by
        simp only [Function.comp]
        rw [ih kv hkv])
    rw [this]

/-- Two values are equal up to reordering of mapping keys at any
nesting depth: objects may permute their entries and then match
entrywise (same key lists, equivalent value lists). -/
inductive JEquiv : Json → Json → Prop where
  | null : JEquiv .null .null
  | bool (b : Bool) : JEquiv (.bool b) (.bool b)
  | num (n : Int) : JEquiv (.num n) (.num n)
  | str (s : String) : JEquiv (.str s) (.str s)
  | arr {xs ys : List Json} : List.Forall₂ JEquiv xs ys → JEquiv (.arr xs) (.arr ys)
  | obj {kvs l kvs₂ : List (String × Json)} :
      List.Perm kvs l →
      l.map Prod.fst = kvs₂.map Prod.fst →
      List.Forall₂ JEquiv (l.map Prod.snd) (kvs₂.map Prod.snd) →
      JEquiv (.obj kvs) (.obj kvs₂)

theorem canonList_eq_of_forall2 {xs ys : List Json}
    (hf : List.Forall₂ JEquiv xs ys)
    (ih : ∀ x ∈ xs, ∀ y, JEquiv x y → nodupKeysB x = true → canonChars x = canonChars y)
    (hnd : ∀ x ∈ xs, nodupKeysB x = true) :
    List.map canonChars xs = List.map canonChars ys := by
  induction hf with
  | nil => rfl
  | cons hxy hrest ihrest =>
    rename_i a b as bs
    simp only [List.map_cons]
    rw [ih a (List.mem_cons_self a as) b hxy (hnd a (List.mem_cons_self a as)),
      ihrest (fun x hx => ih x (List.mem_cons_of_mem a hx))
        (fun x hx => hnd x (List.mem_cons_of_mem a hx))]

theorem canonItems_eq_of_keys_vals :
    ∀ (l₁ l₂ : List (String × Json)),
    l₁.map Prod.fst = l₂.map Prod.fst →
    List.Forall₂ JEquiv (l₁.map Prod.snd) (l₂.map Prod.snd) →
    (∀ kv ∈ l₁, ∀ y, JEquiv kv.2 y → nodupKeysB kv.2 = true → canonChars kv.2 = canonChars y) →
    (∀ kv ∈ l₁, nodupKeysB kv.2 = true) →
    l₁.map (fun kv => (kv.1, canonChars kv.2)) = l₂.map (fun kv => (kv.1, canonChars kv.2)) := by
  intro l₁
  induction l₁ with
  | nil =>
    intro l₂ hk _ _ _
    cases l₂ with
    | nil => rfl
    | cons b bs => simp at hk
  | cons a as ihl =>
    intro l₂ hk hv ih hnd
    cases l₂ with
    | nil => simp at hk
    | cons b bs =>
      simp only [List.map_cons, List.cons.injEq] at hk
      simp only [List.map_cons] at hv
      rw [List.forall₂_cons] at hv
      simp only [List.map_cons, List.cons.injEq]
      constructor
      · rw [hk.1, ih a (List.mem_cons_self a as) b.2 hv.1 (hnd a (List.mem_cons_self a as))]
      · exact ihl bs hk.2 hv.2 (fun kv hkv => ih kv (List.mem_cons_of_mem a hkv))
          (fun kv hkv => hnd kv (List.mem_cons_of_mem a hkv))

/-- Equivalent values with distinct mapping keys have the same
canonical serialization: the serializer's key sort erases the
permutation. -/
theorem canonChars_eq_of_equiv :
    ∀ x, ∀ y, JEquiv x y → nodupKeysB x = true → canonChars x = canonChars y := by
  refine jsonInd (fun x => ∀ y, JEquiv x y → nodupKeysB x = true → canonChars x = canonChars y)
    ?_ ?_ ?_ ?_ ?_ ?_
  · intro y h _; cases h; rfl
  · intro b y h _; cases h; rfl
  · intro n y h _; cases h; rfl
  · intro s y h _; cases h; rfl
  · intro xs ih y h hnd
    cases h with
    | arr hf =>
      simp only [nodupKeysB] at hnd
      simp only [canonChars, canonList_eq_map]
      rw [canonList_eq_of_forall2 hf ih (nodupKeysList_mem hnd)]
  · intro kvs ih y h hnd
    cases h with
    | obj hperm hkeys hvals =>
      rename_i l kvs₂
      simp only [nodupKeysB, Bool.and_eq_true] at hnd
      obtain ⟨hdk, hvalnd⟩ := hnd
      have hmem : ∀ kv ∈ l, kv ∈ kvs := fun kv hkv => (hperm.mem_iff).mpr hkv
      have heq : l.map (fun kv => (kv.1, canonChars kv.2)) =
          kvs₂.map (fun kv => (kv.1, canonChars kv.2)) :=
        canonItems_eq_of_keys_vals l kvs₂ hkeys hvals
          (fun kv hkv => ih kv (hmem kv hkv))
          (fun kv hkv => nodupKeysKVs_mem hvalnd kv (hmem kv hkv))
      have hpg : List.Perm (kvs.map (fun kv => (kv.1, canonChars kv.2)))
          (kvs₂.map (fun kv => (kv.1, canonChars kv.2))) := by
        rw [← heq]
        exact hperm.map _
      have hndg : ((kvs.map (fun kv => (kv.1, canonChars kv.2))).map Prod.fst).Nodup := by
        have hfst : (kvs.map (fun kv => (kv.1, canonChars kv.2))).map Prod.fst =
            kvs.map Prod.fst := by
          simp [List.map_map]
        rw [hfst]
        exact (distinctKeys_iff_nodup _).mp hdk
      simp only [canonChars, canonItems_eq_map]
      rw [sortKV_eq_of_perm hpg hndg]

/-! ## Digest shape: 64 lowercase hex characters -/

theorem hexDigitChar_mem (n : Nat) : hexDigitChar n ∈ hexChars := by
  by_cases h : n < 16
  · interval_cases n <;> decide
  · have hlen : hexChars.length ≤ n := by
      have : hexChars.length = 16 := by decide
      omega
    rw [hexDigitChar, List.getD_eq_default _ _ hlen]
    decide

theorem hexWordChars_length (w : Nat) : (hexWordChars w).length = 8 := rfl

theorem hexWordChars_mem (w : Nat) : ∀ c ∈ hexWordChars w, c ∈ hexChars := by
  intro c hc
  simp only [hexWordChars, List.mem_cons, List.not_mem_nil, or_false] at hc
  rcases hc with h | h | h | h | h | h | h | h <;> exact h ▸ hexDigitChar_mem _

theorem sha256HexChars_length (msg : List Nat) : (sha256HexChars msg).length = 64 := by
  simp [sha256HexChars, List.length_append, hexWordChars_length]

theorem sha256HexChars_mem (msg : List Nat) : ∀ c ∈ sha256HexChars msg, c ∈ hexChars := by
  intro c hc
  simp only [sha256HexChars, List.mem_append] at hc
  rcases hc with ((((((h | h) | h) | h) | h) | h) | h) | h <;> exact hexWordChars_mem _ c h

/-- C4: canonicalization is idempotent — for every JSON-serializable
value `x` (its mappings have distinct keys at every depth, as Python
dicts do), `canonical_json (normalize_json x) = canonical_json x` —
and the fingerprint is invariant under mapping key order: a value
equal to `x` up to key reordering at any nesting depth gets the same
`spec_hash_for` output, which is a 64-character string of lowercase
hex characters. -/
theorem C4_canonical_roundtrip_and_key_order (x y : Json) (hx : nodupKeysB x = true) :
    canonical_json (normalize_json x) = canonical_json x
    ∧ (JEquiv x y → spec_hash_for x = spec_hash_for y)
    ∧ (spec_hash_for x).length = 64
    ∧ (∀ c ∈ (spec_hash_for x).data, c ∈ hexChars) := by
  refine ⟨?_, ?_, ?_, ?_⟩
  · unfold canonical_json normalize_json
    rw [canonChars_normalize]
  · intro h
    unfold spec_hash_for
    rw [canonChars_eq_of_equiv x y h hx]
  · show (String.mk (sha256HexChars (utf8Bytes (canonChars x)))).length = 64
    simp [String.length, sha256HexChars_length]
  · intro c hc
    exact sha256HexChars_mem _ c hc

/-- Witness for C4 at a concrete pair of key-reordered mappings. -/
theorem C4_canonical_roundtrip_and_key_order_witness :
    canonical_json (normalize_json (Json.obj [("b", Json.num 1), ("a", Json.null)])) =
      canonical_json (Json.obj [("b", Json.num 1), ("a", Json.null)])
    ∧ spec_hash_for (Json.obj [("b", Json.num 1), ("a", Json.null)]) =
      spec_hash_for (Json.obj [("a", Json.null), ("b", Json.num 1)]) :=
  let h := C4_canonical_roundtrip_and_key_order
    (Json.obj [("b", Json.num 1), ("a", Json.null)])
    (Json.obj [("a", Json.null), ("b", Json.num 1)]) (by decide)
  ⟨h.1, h.2.1 (JEquiv.obj (List.Perm.swap ("a", Json.null) ("b", Json.num 1) []) rfl
    (List.Forall₂.cons JEquiv.null (List.Forall₂.cons (JEquiv.num 1) List.Forall₂.nil)))⟩

/-! ## db.py: queue→database routing and result-id formatting

The Django settings consulted by `db.py` become an explicit record:
`REPROQ_DEFAULT_DB_ALIAS`, `REPROQ_RESULT_ID_WITH_ALIAS`,
`REPROQ_QUEUE_DATABASES` (a dict, kept in insertion order with unique
keys) and the key set of `DATABASES`.
-/

structure DbSettings where
  reproqDefaultAlias : Option String
  resultIdWithAlias : Option Bool
  queueDatabases : List (String × String)
  databases : List String

/-- `default_db_alias` from `db.py`. -/
def default_db_alias (st : DbSettings) : String :=
  st.reproqDefaultAlias.getD "default"

/-- `_is_glob` from `db.py`: the key contains one of `*`, `?`, `[`. -/
def is_glob (s : String) : Bool :=
  s.data.any (fun c => c = '*' || c = '?' || c = '[')

/-- Scan a bracket class body up to the closing `]`. -/
def findClose : List Char → Option (List Char × List Char)
  | [] => none
  | c :: rest =>
      if c = ']' then some ([], rest)
      else (findClose rest).map (fun p => (c :: p.1, p.2))

/-- Parse a `fnmatch` bracket class after the opening `[`: an optional
leading `!` negates, a `]` directly after that is a literal member, and
a missing closing `]` makes the `[` literal (handled by the caller). -/
def parseClass (ps : List Char) : Option (Bool × List Char × List Char) :=
  let negPs : Bool × List Char :=
    match ps with
    | '!' :: rest => (true, rest)
    | _ => (false, ps)
  match negPs.2 with
  | ']' :: rest => (findClose rest).map (fun p => (negPs.1, ']' :: p.1, p.2))
  | other => (findClose other).map (fun p => (negPs.1, p.1, p.2))

/-- Membership of a character in a bracket class body, with `a-b`
ranges by code point and a trailing `-` literal. -/
def classMatch : List Char → Char → Bool
  | [], _ => false
  | [a], c => a = c
  | a :: '-' :: [], c => a = c || c = '-'
  | a :: '-' :: b :: rest, c => (a ≤ c && c ≤ b) || classMatch rest c
  | a :: rest, c => a = c || classMatch rest c

/-- `fnmatch.fnmatchcase` glob matching over the pattern and name
characters: `*` matches any run, `?` one character, `[...]`/`[!...]`
character classes, an unclosed `[` is literal. The fuel only bounds
the recursion depth (every call shrinks pattern or name) and is always
sufficient; it keeps the definition structurally recursive and hence
kernel-evaluable. -/
def globMatchF : Nat → List Char → List Char → Bool
  | 0, _, _ => false
  | _ + 1, [], s => s.isEmpty
  | fuel + 1, '*' :: ps, s =>
      globMatchF fuel ps s ||
        (match s with
         | [] => false
         | _ :: s2 => globMatchF fuel ('*' :: ps) s2)
  | fuel + 1, '?' :: ps, s =>
      (match s with
       | [] => false
       | _ :: s2 => globMatchF fuel ps s2)
  | fuel + 1, '[' :: ps, s =>
      (match parseClass ps with
       | some cl =>
           match s with
           | [] => false
           | c :: s2 => (classMatch cl.2.1 c != cl.1) && globMatchF fuel cl.2.2 s2
       | none =>
           match s with
           | [] => false
           | c :: s2 => c = '[' && globMatchF fuel ps s2)
  | fuel + 1, p :: ps, s =>
      (match s with
       | [] => false
       | c :: s2 => p = c && globMatchF fuel ps s2)

def globMatch (ps s : List Char) : Bool :=
  globMatchF (ps.length + s.length + 1) ps s

def fnmatchcase (name pattern : String) : Bool :=
  globMatch pattern.data name.data

/-- `if not queue_name: queue_name = "default"` in `resolve_queue_db`. -/
def queueNameOrDefault (queueName : Option String) : String :=
  match queueName with
  | none => "default"
  | some s => if s.isEmpty then "default" else s

/-- `resolve_queue_db` from `db.py`: empty or missing queue name means
`"default"`; exact mapping key first, then the first glob key that
matches, then the default alias. -/
def resolve_queue_db (st : DbSettings) (queueName : Option String) : String :=
  let name := queueNameOrDefault queueName
  match st.queueDatabases.lookup name with
  | some alias2 => alias2
  | none =>
      match st.queueDatabases.find? (fun kv => is_glob kv.1 && fnmatchcase name kv.1) with
      | some kv => kv.2
      | none => default_db_alias st

/-- Lexicographic code-point comparison of strings (Python `str` `<=`),
as a kernel-evaluable boolean. -/
def charListLe : List Char → List Char → Bool
  | [], _ => true
  | _ :: _, [] => false
  | a :: as, b :: bs => if a = b then charListLe as bs else decide (a < b)

def strLeB (a b : String) : Bool := charListLe a.data b.data

/-- `queue_db_aliases` from `db.py`: the default alias plus every value
of the queue map, deduplicated and sorted. -/
def queue_db_aliases (st : DbSettings) : List String :=
  ((default_db_alias st :: st.queueDatabases.map Prod.snd).dedup).insertionSort
    (fun a b => strLeB a b = true)

/-- `should_prefix_result_ids` from `db.py`. -/
def should_prefix_result_ids (st : DbSettings) : Bool :=
  match st.resultIdWithAlias with
  | some b => b
  | none => decide (1 < (queue_db_aliases st).length)

/-- `format_result_id` from `db.py` (`db_alias` is truthy iff
nonempty). -/
def format_result_id (st : DbSettings) (resultId : Int ⊕ String) (dbAlias : String)
    (includeAlias : Option Bool) : String :=
  let inc := includeAlias.getD (should_prefix_result_ids st)
  let rs := match resultId with
    | .inl n => toString n
    | .inr s => s
  if inc && !dbAlias.isEmpty then dbAlias ++ ":" ++ rs else rs

/-- `raw.split(":", 1)`: everything before the first colon, and the
remainder after it. -/
def splitOnceColon : List Char → List Char × List Char
  | [] => ([], [])
  | c :: rest =>
      if c = ':' then ([], rest)
      else
        let r := splitOnceColon rest
        (c :: r.1, r.2)

/-- `parse_result_id` from `db.py`. -/
def parse_result_id (st : DbSettings) (v : Int ⊕ String) : String × String :=
  match v with
  | .inl n => (default_db_alias st, toString n)
  | .inr raw =>
      if raw.data.contains ':' then
        let p := splitOnceColon raw.data
        let alias2 := String.mk p.1
        if (queue_db_aliases st).contains alias2 || st.databases.contains alias2 then
          (alias2, String.mk p.2)
        else (default_db_alias st, raw)
      else (default_db_alias st, raw)

/-! ## Claim C9: queue→alias resolution order -/

theorem lookup_eq_some_of_mem {l : List (String × String)} {k v : String}
    (hnd : (l.map Prod.fst).Nodup) (hmem : (k, v) ∈ l) : l.lookup k = some v := by
  induction l with
  | nil => cases hmem
  | cons kv rest ih =>
    simp only [List.map_cons, List.nodup_cons] at hnd
    rcases List.mem_cons.mp hmem with h | h
    · rw [← h]
      simp [List.lookup]
    · have hne : k ≠ kv.1 := by
        intro he
        exact hnd.1 (he ▸ (List.mem_map.mpr ⟨(k, v), h, rfl⟩))
      have hbe : (k == kv.1) = false := by simpa using hne
      simp only [List.lookup, hbe]
      exact ih hnd.2 h

theorem lookup_eq_none_of_not_mem {l : List (String × String)} {k : String}
    (h : k ∉ l.map Prod.fst) : l.lookup k = none := by
  induction l with
  | nil => rfl
  | cons kv rest ih =>
    simp only [List.map_cons, List.mem_cons, not_or] at h
    have hbe : (k == kv.1) = false := by simpa using h.1
    simp only [List.lookup, hbe]
    exact ih h.2

theorem find?_first {α : Type} (p : α → Bool) :
    ∀ (pre : List α) (x : α) (post : List α), p x = true →
    (∀ y ∈ pre, p y = false) → List.find? p (pre ++ x :: post) = some x := by
  intro pre
  induction pre with
  | nil =>
    intro x post hx _
    simp [List.find?, hx]
  | cons a as ih =>
    intro x post hx hpre
    simp only [List.cons_append, List.find?]
    rw [hpre a (List.mem_cons_self a as)]
    exact ih x post hx (fun y hy => hpre y (List.mem_cons_of_mem a hy))

/-- C9: `resolve_queue_db` returns the exact mapping entry for the queue
name when present; otherwise the alias of the first glob key that
matches; otherwise the configured default alias — with an empty or
missing queue name treated as `"default"`. -/
theorem C9_resolve_queue_db (st : DbSettings) (q : Option String)
    (hnd : (st.queueDatabases.map Prod.fst).Nodup) :
    (∀ a, (queueNameOrDefault q, a) ∈ st.queueDatabases → resolve_queue_db st q = a)
    ∧ (∀ pre k a post,
        st.queueDatabases = pre ++ (k, a) :: post →
        queueNameOrDefault q ∉ st.queueDatabases.map Prod.fst →
        is_glob k = true → fnmatchcase (queueNameOrDefault q) k = true →
        (∀ kv ∈ pre, is_glob kv.1 = true → fnmatchcase (queueNameOrDefault q) kv.1 = false) →
        resolve_queue_db st q = a)
    ∧ (queueNameOrDefault q ∉ st.queueDatabases.map Prod.fst →
       (∀ kv ∈ st.queueDatabases, is_glob kv.1 = true →
         fnmatchcase (queueNameOrDefault q) kv.1 = false) →
       resolve_queue_db st q = default_db_alias st) := by
  refine ⟨?_, ?_, ?_⟩
  · intro a hmem
    simp only [resolve_queue_db, lookup_eq_some_of_mem hnd hmem]
  · intro pre k a post hdec hnk hg hm hpre
    simp only [resolve_queue_db, lookup_eq_none_of_not_mem hnk]
    rw [hdec, find?_first _ pre (k, a) post (by simp [hg, hm])
        (fun y hy => by
          by_cases hyg : is_glob y.1 = true
          · simp [hyg, hpre y hy hyg]
          · simp [Bool.eq_false_iff.mpr hyg])]
  · intro hnk hall
    have hfind : st.queueDatabases.find?
        (fun kv => is_glob kv.1 && fnmatchcase (queueNameOrDefault q) kv.1) = none := by
      rw [List.find?_eq_none]
      intro kv hkv
      by_cases hyg : is_glob kv.1 = true
      · simp [hyg, hall kv hkv hyg]
      · simp [Bool.eq_false_iff.mpr hyg]
    simp only [resolve_queue_db, lookup_eq_none_of_not_mem hnk, hfind]

/-- Witness for C9: exact lookup, first-glob lookup, and the default
fallback at one concrete settings value. -/
theorem C9_resolve_queue_db_witness :
    resolve_queue_db ⟨none, none, [("alpha", "db1"), ("bulk-*", "db2")], []⟩ (some "alpha") = "db1"
    ∧ resolve_queue_db ⟨none, none, [("alpha", "db1"), ("bulk-*", "db2")], []⟩ (some "bulk-9") = "db2"
    ∧ resolve_queue_db ⟨none, none, [("alpha", "db1"), ("bulk-*", "db2")], []⟩ (some "zeta") = "default" :=
  ⟨(C9_resolve_queue_db ⟨none, none, [("alpha", "db1"), ("bulk-*", "db2")], []⟩ (some "alpha")
      (by decide)).1 "db1" (by decide),
   (C9_resolve_queue_db ⟨none, none, [("alpha", "db1"), ("bulk-*", "db2")], []⟩ (some "bulk-9")
      (by decide)).2.1 [("alpha", "db1")] "bulk-*" "db2" [] rfl (by decide) (by decide) (by decide)
      (by decide),
   (C9_resolve_queue_db ⟨none, none, [("alpha", "db1"), ("bulk-*", "db2")], []⟩ (some "zeta")
      (by decide)).2.2 (by decide) (by decide)⟩

/-! ## Claim C10: result-id formatting and parsing -/

theorem splitOnceColon_append {pre post : List Char} (h : ':' ∉ pre) :
    splitOnceColon (pre ++ ':' :: post) = (pre, post) := by
  induction pre with
  | nil => simp [splitOnceColon]
  | cons c cs ih =>
    simp only [List.cons_append, splitOnceColon]
    have hc : ¬ c = ':' := fun hh => h (hh ▸ List.mem_cons_self c cs)
    have hih := ih (fun hm => h (List.mem_cons_of_mem c hm))
    rw [if_neg hc]
    simp only [List.append_eq, hih]

/-- C10 fails as stated: a configured database alias containing a colon
does not round-trip, because `parse_result_id` splits at the first
colon. With `DATABASES = {"a:b": ...}`, formatting id 5 for alias
`"a:b"` gives `"a:b:5"`, which parses back to the default alias and the
raw string. -/
theorem C10_counterexample :
    format_result_id ⟨none, none, [], ["a:b"]⟩ (Sum.inl 5) "a:b" (some true) = "a:b:5"
    ∧ "a:b" ∈ DbSettings.databases ⟨none, none, [], ["a:b"]⟩
    ∧ parse_result_id ⟨none, none, [], ["a:b"]⟩ (Sum.inr "a:b:5") = ("default", "a:b:5")
    ∧ ("default", "a:b:5") ≠ ("a:b", toString (5 : Int)) := by
  refine ⟨by decide, by decide, by decide, by decide⟩

/-- C10 (amended): for every configured database alias `a` that is
nonempty and contains no colon, and every integer id `n`,
`parse_result_id (format_result_id n a (include_alias := true))`
returns `(a, str n)`; and `parse_result_id` of a plain integer always
returns the default alias with that integer's decimal string. -/
theorem C10_result_id_roundtrip (st : DbSettings) (a : String) (n : Int)
    (ha : a ∈ queue_db_aliases st ∨ a ∈ st.databases)
    (hne : ¬ a.isEmpty = true)
    (hcolon : ':' ∉ a.data) :
    parse_result_id st (Sum.inr (format_result_id st (Sum.inl n) a (some true))) =
      (a, toString n)
    ∧ ∀ m : Int, parse_result_id st (Sum.inl m) = (default_db_alias st, toString m) := by
  constructor
  · have hfmt : format_result_id st (Sum.inl n) a (some true) = a ++ ":" ++ toString n := by
      unfold format_result_id
      simp only [Option.getD, Bool.true_and]
      rw [if_pos]
      simp [Bool.eq_false_iff.mpr hne]
    rw [hfmt]
    have hdata : (a ++ ":" ++ toString n).data = a.data ++ ':' :: (toString n).data := by
      show (a.data ++ [':']) ++ (toString n).data = _
      rw [List.append_assoc]
      rfl
    unfold parse_result_id
    simp only [hdata]
    have hcont : (a.data ++ ':' :: (toString n).data).contains ':' = true := by
      have hin : (':' : Char) ∈ a.data ++ ':' :: (toString n).data :=
        List.mem_append.mpr (Or.inr (List.mem_cons_self _ _))
      exact List.elem_iff.mpr hin
    rw [if_pos hcont]
    simp only [splitOnceColon_append hcolon]
    have hmem : ((queue_db_aliases st).contains (String.mk a.data) ||
        st.databases.contains (String.mk a.data)) = true := by
      rw [Bool.or_eq_true]
      rcases ha with h | h
      · exact Or.inl (List.elem_iff.mpr h)
      · exact Or.inr (List.elem_iff.mpr h)
    rw [if_pos hmem]
  · intro m
    rfl

/-- Witness for the amended C10 at a concrete alias and id. -/
theorem C10_result_id_roundtrip_witness :
    parse_result_id ⟨none, none, [("q", "analytics")], []⟩
        (Sum.inr (format_result_id ⟨none, none, [("q", "analytics")], []⟩
          (Sum.inl 42) "analytics" (some true))) = ("analytics", toString (42 : Int))
    ∧ ∀ m : Int, parse_result_id ⟨none, none, [("q", "analytics")], []⟩ (Sum.inl m) =
        ("default", toString m) :=
  C10_result_id_roundtrip ⟨none, none, [("q", "analytics")], []⟩ "analytics" 42
    (by decide) (by decide) (by decide)

/-! ## encode_payload / decode_payload (serialization.py)

Payload values are Python data reachable from task args/kwargs: JSON
scalars, lists (tuples become lists on encode), string-keyed dicts,
`datetime.timedelta` objects (their `days`/`seconds`/`microseconds`
fields, normalized as Python keeps them), and Django model instances
(app label, model name, optional primary key rendered as a string).
`apps` and the active database alias become an explicit environment:
the registered models and the existing `(app_label, model, pk)` rows.
-/

inductive Val where
  | vnull : Val
  | vbool (b : Bool) : Val
  | vint (n : Int) : Val
  | vstr (s : String) : Val
  | vlist (xs : List Val) : Val
  | vdict (kvs : List (String × Val)) : Val
  | vtimedelta (days seconds microseconds : Int) : Val
  | vmodel (appLabel modelName : String) (pk : Option String) : Val

def TYPE_MARKER : String := "__reproq_type__"

mutual

/-- `encode_payload` from `serialization.py`: model instances and
timedeltas become tagged dicts, lists and dict values are encoded
recursively, everything else passes through; a model instance without
a primary key is a `ValueError`. -/
def encode_payload : Val → Except String Val
  | .vmodel app mdl pk =>
      match pk with
      | none => .error "Cannot serialize model instance without primary key"
      | some pkv => .ok (.vdict [(TYPE_MARKER, .vstr "model"), ("app_label", .vstr app),
          ("model", .vstr mdl), ("pk", .vstr pkv)])
  | .vtimedelta d s us => .ok (.vdict [(TYPE_MARKER, .vstr "timedelta"), ("days", .vint d),
      ("seconds", .vint s), ("microseconds", .vint us)])
  | .vlist xs => (encodeList xs).map .vlist
  | .vdict kvs => (encodeKVs kvs).map .vdict
  | v => .ok v

def encodeList : List Val → Except String (List Val)
  | [] => .ok []
  | x :: xs => do
      let x2 ← encode_payload x
      let xs2 ← encodeList xs
      .ok (x2 :: xs2)

def encodeKVs : List (String × Val) → Except String (List (String × Val))
  | [] => .ok []
  | kv :: kvs => do
      let v2 ← encode_payload kv.2
      let kvs2 ← encodeKVs kvs
      .ok ((kv.1, v2) :: kvs2)

end

/-- Errors `decode_payload` can surface: `DeserializationError`, the
`LookupError` that `apps.get_model` raises for an unregistered model,
or the `TypeError` the `timedelta` constructor raises on non-integer
components. -/
inductive DecErr where
  | deser : DecErr
  | lookupErr : DecErr
  | typeErr : DecErr
deriving DecidableEq

structure ModelEnv where
  registered : List (String × String)
  rows : List (String × String × String)

/-- `value.get(key)` on a payload dict. -/
def getField (kvs : List (String × Val)) (k : String) : Option Val :=
  kvs.lookup k

/-- A reference field read as a string; absent or non-string fields act
as missing (Python's falsy check then rejects them). -/
def getStrField (kvs : List (String × Val)) (k : String) : Option String :=
  match getField kvs k with
  | some (.vstr s) => some s
  | _ => none

/-- `value.get(k, 0)` for the timedelta components; a present non-int
field has no integer reading. -/
def getIntField (kvs : List (String × Val)) (k : String) : Option Int :=
  match getField kvs k with
  | some (.vint n) => some n
  | none => some 0
  | some _ => none

/-- `datetime.timedelta(days, seconds, microseconds)` normalization:
`0 ≤ microseconds < 10^6` and `0 ≤ seconds < 86400`, excess carried
into days. -/
def timedeltaNorm (d s us : Int) : Int × Int × Int :=
  let total := (d * 86400 + s) * 1000000 + us
  let us2 := total % 1000000
  let rest := (total - us2) / 1000000
  let s2 := rest % 86400
  let d2 := (rest - s2) / 86400
  (d2, s2, us2)

/-- Resolution of a tagged `model` wrapper, following the source order:
falsy `app_label`/`model` raise `DeserializationError`; an unregistered
model raises `LookupError` (from `apps.get_model`); a registered model
whose row is absent raises `DeserializationError`; otherwise the
instance is returned. -/
def resolveModel (env : ModelEnv) (kvs : List (String × Val)) : Except DecErr Val :=
  let app := getStrField kvs "app_label"
  let mdl := getStrField kvs "model"
  let pk := getStrField kvs "pk"
  match app, mdl with
  | some a, some m =>
      if a.isEmpty || m.isEmpty then .error .deser
      else if (env.registered.contains (a, m)) then
        match pk with
        | some p => if env.rows.contains (a, m, p) then .ok (.vmodel a m (some p)) else .error .deser
        | none => .error .deser
      else .error .lookupErr
  | _, _ => .error .deser

mutual

/-- `decode_payload` from `serialization.py`: lists and untagged dicts
decode recursively; a dict carrying the `TYPE_MARKER` key is a tagged
wrapper — `timedelta` rebuilds the duration from its (defaulted)
components, `model` resolves the reference, any other kind is a
`DeserializationError`. -/
def decode_payload (env : ModelEnv) : Val → Except DecErr Val
  | .vlist xs => (decodeList env xs).map .vlist
  | .vdict kvs =>
      if (kvs.map Prod.fst).contains TYPE_MARKER then
        match getField kvs TYPE_MARKER with
        | some (.vstr "timedelta") =>
            match getIntField kvs "days", getIntField kvs "seconds",
                getIntField kvs "microseconds" with
            | some d, some s, some us =>
                let n := timedeltaNorm d s us
                .ok (.vtimedelta n.1 n.2.1 n.2.2)
            | _, _, _ => .error .typeErr
        | some (.vstr "model") => resolveModel env kvs
        | _ => .error .deser
      else (decodeKVs env kvs).map .vdict
  | v => .ok v

def decodeList (env : ModelEnv) : List Val → Except DecErr (List Val)
  | [] => .ok []
  | x :: xs => do
      let x2 ← decode_payload env x
      let xs2 ← decodeList env xs
      .ok (x2 :: xs2)

def decodeKVs (env : ModelEnv) : List (String × Val) → Except DecErr (List (String × Val))
  | [] => .ok []
  | kv :: kvs => do
      let v2 ← decode_payload env kv.2
      let kvs2 ← decodeKVs env kvs
      .ok ((kv.1, v2) :: kvs2)

end

/-- Structural induction for the nested `Val` type, with member
hypotheses for lists and dicts. -/
def valInd (P : Val → Prop)
    (h1 : P .vnull) (h2 : ∀ b, P (.vbool b)) (h3 : ∀ n, P (.vint n)) (h4 : ∀ s, P (.vstr s))
    (h5 : ∀ xs, (∀ x ∈ xs, P x) → P (.vlist xs))
    (h6 : ∀ kvs, (∀ kv ∈ kvs, P kv.2) → P (.vdict kvs))
    (h7 : ∀ d s us, P (.vtimedelta d s us))
    (h8 : ∀ a m pk, P (.vmodel a m pk)) : ∀ v, P v
  | .vnull => h1
  | .vbool b => h2 b
  | .vint n => h3 n
  | .vstr s => h4 s
  | .vlist xs => h5 xs (fun x hx =>
      have : sizeOf x < 1 + sizeOf xs := by
        have := List.sizeOf_lt_of_mem hx
        omega
      valInd P h1 h2 h3 h4 h5 h6 h7 h8 x)
  | .vdict kvs => h6 kvs (fun kv hkv =>
      have : sizeOf kv.2 < 1 + sizeOf kvs := by
        have h := List.sizeOf_lt_of_mem hkv
        have h2 : sizeOf kv.2 < sizeOf kv := by
          cases kv; simp
        omega
      valInd P h1 h2 h3 h4 h5 h6 h7 h8 kv.2)
  | .vtimedelta d s us => h7 d s us
  | .vmodel a m pk => h8 a m pk
termination_by v => sizeOf v

def exOk {ε α : Type} : Except ε α → Bool
  | .ok _ => true
  | .error _ => false

def hasMarkerB (kvs : List (String × Val)) : Bool :=
  (kvs.map Prod.fst).contains TYPE_MARKER

/-- Success condition of `decode_payload` at one tagged wrapper (no
recursion: tagged wrappers are rebuilt, not traversed). -/
def wrapperOkB (env : ModelEnv) (kvs : List (String × Val)) : Bool :=
  match getField kvs TYPE_MARKER with
  | some (.vstr "timedelta") =>
      (getIntField kvs "days").isSome && ((getIntField kvs "seconds").isSome &&
        (getIntField kvs "microseconds").isSome)
  | some (.vstr "model") => exOk (resolveModel env kvs)
  | _ => false

mutual

/-- The payload contains no failing wrapper: every tagged dict in it,
at any depth reachable through lists and dict values, decodes. -/
def noBadB (env : ModelEnv) : Val → Bool
  | .vlist xs => noBadList env xs
  | .vdict kvs => if hasMarkerB kvs then wrapperOkB env kvs else noBadKVs env kvs
  | _ => true

def noBadList (env : ModelEnv) : List Val → Bool
  | [] => true
  | x :: xs => noBadB env x && noBadList env xs

def noBadKVs (env : ModelEnv) : List (String × Val) → Bool
  | [] => true
  | kv :: kvs => noBadB env kv.2 && noBadKVs env kvs

end

theorem decodeList_isOk (env : ModelEnv) (xs : List Val)
    (ih : ∀ x ∈ xs, exOk (decode_payload env x) = noBadB env x) :
    exOk (decodeList env xs) = noBadList env xs := by
  induction xs with
  | nil => rfl
  | cons x xs ihl =>
    have hx := ih x (List.mem_cons_self x xs)
    have hrest := ihl (fun y hy => ih y (List.mem_cons_of_mem x hy))
    cases h1 : decode_payload env x with
    | error e =>
      rw [h1] at hx
      simp only [decodeList, h1, noBadList, ← hx]
      rfl
    | ok x2 =>
      rw [h1] at hx
      cases h2 : decodeList env xs with
      | error e =>
        rw [h2] at hrest
        simp only [decodeList, h1, h2, noBadList, ← hx, ← hrest]
        rfl
      | ok xs2 =>
        rw [h2] at hrest
        simp only [decodeList, h1, h2, noBadList, ← hx, ← hrest]
        rfl

theorem decodeKVs_isOk (env : ModelEnv) (kvs : List (String × Val))
    (ih : ∀ kv ∈ kvs, exOk (decode_payload env kv.2) = noBadB env kv.2) :
    exOk (decodeKVs env kvs) = noBadKVs env kvs := by
  induction kvs with
  | nil => rfl
  | cons kv kvs ihl =>
    have hx := ih kv (List.mem_cons_self kv kvs)
    have hrest := ihl (fun y hy => ih y (List.mem_cons_of_mem kv hy))
    cases h1 : decode_payload env kv.2 with
    | error e =>
      rw [h1] at hx
      simp only [decodeKVs, h1, noBadKVs, ← hx]
      rfl
    | ok x2 =>
      rw [h1] at hx
      cases h2 : decodeKVs env kvs with
      | error e =>
        rw [h2] at hrest
        simp only [decodeKVs, h1, h2, noBadKVs, ← hx, ← hrest]
        rfl
      | ok xs2 =>
        rw [h2] at hrest
        simp only [decodeKVs, h1, h2, noBadKVs, ← hx, ← hrest]
        rfl

/-- `decode_payload` succeeds exactly when the payload contains no
failing wrapper. -/
theorem decode_isOk_iff_noBad (env : ModelEnv) :
    ∀ v, exOk (decode_payload env v) = noBadB env v := by
  refine valInd _ rfl (fun _ => rfl) (fun _ => rfl) (fun _ => rfl)
    (fun xs ih => ?_) (fun kvs ih => ?_) (fun _ _ _ => rfl) (fun _ _ _ => rfl)
  · have := decodeList_isOk env xs ih
    cases h : decodeList env xs with
    | error e =>
      rw [h] at this
      simp only [decode_payload, h, noBadB, ← this]
      rfl
    | ok xs2 =>
      rw [h] at this
      simp only [decode_payload, h, noBadB, ← this]
      rfl
  · by_cases hm : hasMarkerB kvs = true
    · simp only [decode_payload, noBadB, hasMarkerB] at *
      rw [if_pos hm, if_pos hm]
      unfold wrapperOkB
      cases hk : getField kvs TYPE_MARKER with
      | none => rfl
      | some mv =>
        cases mv with
        | vstr s =>
          by_cases hs : s = "timedelta"
          · subst hs
            cases hd : getIntField kvs "days" with
            | none =>
              cases hsec : getIntField kvs "seconds" <;>
                cases hus : getIntField kvs "microseconds" <;>
                  simp [hk, hd, hsec, hus, exOk]
            | some d =>
              cases hsec : getIntField kvs "seconds" with
              | none =>
                cases hus : getIntField kvs "microseconds" <;>
                  simp [hk, hd, hsec, hus, exOk]
              | some s2 =>
                cases hus : getIntField kvs "microseconds" <;>
                  simp [hk, hd, hsec, hus, exOk]
          · by_cases hs2 : s = "model"
            · subst hs2
              simp [hk]
            · simp [hk, hs, hs2, exOk]
        | vnull => simp [hk, exOk]
        | vbool b => simp [hk, exOk]
        | vint n => simp [hk, exOk]
        | vlist xs => simp [hk, exOk]
        | vdict kvs2 => simp [hk, exOk]
        | vtimedelta d s us => simp [hk, exOk]
        | vmodel a m pk => simp [hk, exOk]
    · have hm' : hasMarkerB kvs = false := Bool.eq_false_iff.mpr hm
      have := decodeKVs_isOk env kvs ih
      simp only [decode_payload, noBadB, hasMarkerB] at *
      rw [if_neg hm, if_neg hm]
      cases h : decodeKVs env kvs with
      | error e =>
        rw [h] at this
        simp only [h, ← this]
        rfl
      | ok kvs2 =>
        rw [h] at this
        simp only [h, ← this]
        rfl

mutual

/-- Values whose encoding round-trips: no model instances, no dict
already carrying the reserved marker key (producer payloads must not
collide with it), and timedelta components normalized (as the fields
of a Python `timedelta` always are). -/
def roundSafeB : Val → Bool
  | .vmodel _ _ _ => false
  | .vtimedelta d s us => decide (timedeltaNorm d s us = (d, s, us))
  | .vlist xs => roundSafeList xs
  | .vdict kvs => !hasMarkerB kvs && roundSafeKVs kvs
  | _ => true

def roundSafeList : List Val → Bool
  | [] => true
  | x :: xs => roundSafeB x && roundSafeList xs

def roundSafeKVs : List (String × Val) → Bool
  | [] => true
  | kv :: kvs => roundSafeB kv.2 && roundSafeKVs kvs

end

theorem encodeKVs_keys {kvs kvs2 : List (String × Val)} (h : encodeKVs kvs = .ok kvs2) :
    kvs2.map Prod.fst = kvs.map Prod.fst := by
  induction kvs generalizing kvs2 with
  | nil =>
    simp only [encodeKVs] at h
    cases h
    rfl
  | cons kv rest ih =>
    simp only [encodeKVs] at h
    cases h1 : encode_payload kv.2 with
    | error e => rw [h1] at h; cases h
    | ok v2 =>
      rw [h1] at h
      cases h2 : encodeKVs rest with
      | error e => rw [h2] at h; cases h
      | ok rest2 =>
        rw [h2] at h
        cases h
        simp [ih h2]

theorem encodeList_roundtrip_aux (env : ModelEnv) (xs : List Val)
    (ih : ∀ x ∈ xs, roundSafeB x = true →
      ∃ w, encode_payload x = .ok w ∧ decode_payload env w = .ok x)
    (hsafe : roundSafeList xs = true) :
    ∃ xs2, encodeList xs = .ok xs2 ∧ decodeList env xs2 = .ok xs := by
  induction xs with
  | nil => exact ⟨[], rfl, rfl⟩
  | cons x rest ihl =>
    simp only [roundSafeList, Bool.and_eq_true] at hsafe
    obtain ⟨w, hw1, hw2⟩ := ih x (List.mem_cons_self x rest) hsafe.1
    obtain ⟨rest2, hr1, hr2⟩ :=
      ihl (fun y hy => ih y (List.mem_cons_of_mem x hy)) hsafe.2
    refine ⟨w :: rest2, ?_, ?_⟩
    · simp only [encodeList, hw1, hr1]
      rfl
    · simp only [decodeList, hw2, hr2]
      rfl

theorem encodeKVs_roundtrip_aux (env : ModelEnv) (kvs : List (String × Val))
    (ih : ∀ kv ∈ kvs, roundSafeB kv.2 = true →
      ∃ w, encode_payload kv.2 = .ok w ∧ decode_payload env w = .ok kv.2)
    (hsafe : roundSafeKVs kvs = true) :
    ∃ kvs2, encodeKVs kvs = .ok kvs2 ∧ decodeKVs env kvs2 = .ok kvs := by
  induction kvs with
  | nil => exact ⟨[], rfl, rfl⟩
  | cons kv rest ihl =>
    simp only [roundSafeKVs, Bool.and_eq_true] at hsafe
    obtain ⟨w, hw1, hw2⟩ := ih kv (List.mem_cons_self kv rest) hsafe.1
    obtain ⟨rest2, hr1, hr2⟩ :=
      ihl (fun y hy => ih y (List.mem_cons_of_mem kv hy)) hsafe.2
    refine ⟨(kv.1, w) :: rest2, ?_, ?_⟩
    · simp only [encodeKVs, hw1, hr1]
      rfl
    · simp only [decodeKVs, hw2, hr2]
      rfl

/-- Decoding inverts encoding on round-safe values. -/
theorem decode_encode_roundtrip (env : ModelEnv) :
    ∀ v, roundSafeB v = true →
    ∃ w, encode_payload v = .ok w ∧ decode_payload env w = .ok v := by
  refine valInd _ ?_ ?_ ?_ ?_ ?_ ?_ ?_ ?_
  · exact fun _ => ⟨.vnull, rfl, rfl⟩
  · exact fun b _ => ⟨.vbool b, rfl, rfl⟩
  · exact fun n _ => ⟨.vint n, rfl, rfl⟩
  · exact fun s _ => ⟨.vstr s, rfl, rfl⟩
  · intro xs ih hsafe
    obtain ⟨xs2, h1, h2⟩ := encodeList_roundtrip_aux env xs ih hsafe
    refine ⟨.vlist xs2, ?_, ?_⟩
    · simp only [encode_payload, h1]
      rfl
    · simp only [decode_payload, h2]
      rfl
  · intro kvs ih hsafe
    simp only [roundSafeB, Bool.and_eq_true] at hsafe
    obtain ⟨kvs2, h1, h2⟩ := encodeKVs_roundtrip_aux env kvs ih hsafe.2
    refine ⟨.vdict kvs2, ?_, ?_⟩
    · simp only [encode_payload, h1]
      rfl
    · have hkeys : kvs2.map Prod.fst = kvs.map Prod.fst := encodeKVs_keys h1
      have hnomark : (kvs2.map Prod.fst).contains TYPE_MARKER = false := by
        rw [hkeys]
        have := hsafe.1
        simp only [Bool.not_eq_true'] at this
        exact this
      simp only [decode_payload, hnomark, h2]
      rfl
  · intro d s us hsafe
    simp only [roundSafeB, decide_eq_true_eq] at hsafe
    refine ⟨.vdict [(TYPE_MARKER, .vstr "timedelta"), ("days", .vint d),
      ("seconds", .vint s), ("microseconds", .vint us)], rfl, ?_⟩
    show decode_payload env _ = _
    simp only [decode_payload]
    have hcond : (List.map Prod.fst [(TYPE_MARKER, Val.vstr "timedelta"), ("days", Val.vint d),
        ("seconds", Val.vint s), ("microseconds", Val.vint us)]).contains TYPE_MARKER = true := rfl
    rw [if_pos hcond]
    have hmk : getField [(TYPE_MARKER, .vstr "timedelta"), ("days", .vint d),
        ("seconds", .vint s), ("microseconds", .vint us)] TYPE_MARKER =
        some (.vstr "timedelta") := by
      simp [getField, List.lookup]
    have hd : getIntField [(TYPE_MARKER, .vstr "timedelta"), ("days", .vint d),
        ("seconds", .vint s), ("microseconds", .vint us)] "days" = some d := by
      simp [getIntField, getField, List.lookup, TYPE_MARKER]
    have hs : getIntField [(TYPE_MARKER, .vstr "timedelta"), ("days", .vint d),
        ("seconds", .vint s), ("microseconds", .vint us)] "seconds" = some s := by
      simp [getIntField, getField, List.lookup, TYPE_MARKER]
    have hus : getIntField [(TYPE_MARKER, .vstr "timedelta"), ("days", .vint d),
        ("seconds", .vint s), ("microseconds", .vint us)] "microseconds" = some us := by
      simp [getIntField, getField, List.lookup, TYPE_MARKER]
    rw [hmk, hd, hs, hus]
    simp [hsafe]
  · intro a m pk hsafe
    simp [roundSafeB] at hsafe

theorem resolveModel_cases (env : ModelEnv) (kvs : List (String × Val)) (a m p : String)
    (ha : getStrField kvs "app_label" = some a) (hm : getStrField kvs "model" = some m)
    (hp : getStrField kvs "pk" = some p)
    (hae : a.isEmpty = false) (hme : m.isEmpty = false) :
    ((a, m) ∉ env.registered → resolveModel env kvs = .error .lookupErr)
    ∧ ((a, m) ∈ env.registered → (a, m, p) ∉ env.rows →
        resolveModel env kvs = .error .deser)
    ∧ ((a, m) ∈ env.registered → (a, m, p) ∈ env.rows →
        resolveModel env kvs = .ok (.vmodel a m (some p))) := by
  refine ⟨?_, ?_, ?_⟩
  · intro hreg
    simp [resolveModel, ha, hm, hp, hae, hme, hreg]
  · intro hreg hrow
    simp [resolveModel, ha, hm, hp, hae, hme, hreg, hrow]
  · intro hreg hrow
    simp [resolveModel, ha, hm, hp, hae, hme, hreg, hrow]

theorem decode_marker_model (env : ModelEnv) (kvs : List (String × Val))
    (hmark : hasMarkerB kvs = true)
    (hk : getField kvs TYPE_MARKER = some (.vstr "model")) :
    decode_payload env (.vdict kvs) = resolveModel env kvs := by
  rw [hasMarkerB] at hmark
  unfold decode_payload
  rw [if_pos hmark, hk]
  rfl

theorem decode_marker_unknown (env : ModelEnv) (kvs : List (String × Val)) (k : String)
    (hmark : hasMarkerB kvs = true)
    (hk : getField kvs TYPE_MARKER = some (.vstr k))
    (hkt : k ≠ "timedelta") (hkm : k ≠ "model") :
    decode_payload env (.vdict kvs) = .error .deser := by
  rw [hasMarkerB] at hmark
  unfold decode_payload
  rw [if_pos hmark, hk]
  split
  · rename_i heq
    exfalso
    injection heq with h1
    injection h1 with h2
    exact hkt h2
  · rename_i heq
    exfalso
    injection heq with h1
    injection h1 with h2
    exact hkm h2
  · rfl

/-- C8 fails as stated: a model reference to an unregistered model is a
reference whose row does not exist in the active database, yet
`decode_payload` raises `LookupError` (from `apps.get_model`), not a
deserialization error. -/
theorem C8_counterexample :
    decode_payload ⟨[], []⟩ (.vdict [(TYPE_MARKER, .vstr "model"),
      ("app_label", .vstr "nosuch"), ("model", .vstr "m"), ("pk", .vstr "1")]) =
      .error .lookupErr
    ∧ DecErr.lookupErr ≠ DecErr.deser :=
  ⟨rfl, by decide⟩

/-- C8 (amended): `decode_payload` fails exactly when the payload
contains a failing tagged wrapper; the error is a
`DeserializationError` for an unrecognized kind and for a reference to
a registered model whose row does not exist in the active database
alias, but a `LookupError` for a reference to an unregistered model;
and `decode_payload (encode_payload v) = v` for payloads containing
only well-formed duration wrappers (no model instances, no collision
with the reserved marker key). -/
theorem C8_decode_payload_errors (env : ModelEnv) :
    (∀ v, exOk (decode_payload env v) = noBadB env v)
    ∧ (∀ kvs k, hasMarkerB kvs = true → getField kvs TYPE_MARKER = some (.vstr k) →
        k ≠ "timedelta" → k ≠ "model" → decode_payload env (.vdict kvs) = .error .deser)
    ∧ (∀ kvs a m p, hasMarkerB kvs = true →
        getField kvs TYPE_MARKER = some (.vstr "model") →
        getStrField kvs "app_label" = some a → getStrField kvs "model" = some m →
        getStrField kvs "pk" = some p → a.isEmpty = false → m.isEmpty = false →
        (((a, m) ∉ env.registered →
            decode_payload env (.vdict kvs) = .error .lookupErr)
         ∧ ((a, m) ∈ env.registered → (a, m, p) ∉ env.rows →
             decode_payload env (.vdict kvs) = .error .deser)
         ∧ ((a, m) ∈ env.registered → (a, m, p) ∈ env.rows →
             decode_payload env (.vdict kvs) = .ok (.vmodel a m (some p)))))
    ∧ (∀ v, roundSafeB v = true →
        ∃ w, encode_payload v = .ok w ∧ decode_payload env w = .ok v) := by
  refine ⟨decode_isOk_iff_noBad env,
    fun kvs k hmark hk hkt hkm => decode_marker_unknown env kvs k hmark hk hkt hkm,
    fun kvs a m p hmark hk ha hm hp hae hme => ?_,
    decode_encode_roundtrip env⟩
  have hres := resolveModel_cases env kvs a m p ha hm hp hae hme
  have hd := decode_marker_model env kvs hmark hk
  exact ⟨fun h1 => by rw [hd]; exact hres.1 h1,
    fun h1 h2 => by rw [hd]; exact hres.2.1 h1 h2,
    fun h1 h2 => by rw [hd]; exact hres.2.2 h1 h2⟩

/-- Witness for C8 at concrete payloads: a resolvable model reference,
an unknown wrapper kind, and a duration round-trip. -/
theorem C8_decode_payload_errors_witness :
    decode_payload ⟨[("app", "m")], [("app", "m", "1")]⟩
        (.vdict [(TYPE_MARKER, .vstr "model"), ("app_label", .vstr "app"),
          ("model", .vstr "m"), ("pk", .vstr "1")]) = .ok (.vmodel "app" "m" (some "1"))
    ∧ decode_payload ⟨[("app", "m")], [("app", "m", "1")]⟩
        (.vdict [(TYPE_MARKER, .vstr "mystery")]) = .error .deser
    ∧ ∃ w, encode_payload (.vtimedelta 1 2 3) = .ok w ∧
        decode_payload ⟨[("app", "m")], [("app", "m", "1")]⟩ w = .ok (.vtimedelta 1 2 3) :=
  ⟨((C8_decode_payload_errors ⟨[("app", "m")], [("app", "m", "1")]⟩).2.2.1
      [(TYPE_MARKER, .vstr "model"), ("app_label", .vstr "app"),
        ("model", .vstr "m"), ("pk", .vstr "1")] "app" "m" "1"
      rfl rfl rfl rfl rfl rfl rfl).2.2 (by decide) (by decide),
   (C8_decode_payload_errors ⟨[("app", "m")], [("app", "m", "1")]⟩).2.1
      [(TYPE_MARKER, .vstr "mystery")] "mystery" rfl rfl (by decide) (by decide),
   (C8_decode_payload_errors ⟨[("app", "m")], [("app", "m", "1")]⟩).2.2.2
      (.vtimedelta 1 2 3) (by decide)⟩

/-! ## Claim C6: tagged-wrapper marker key -/

/-- The values `encode_payload` wraps in a tagged dict: durations and
entity references (model instances carrying a primary key). -/
def isTaggableB : Val → Bool
  | .vtimedelta _ _ _ => true
  | .vmodel _ _ (some _) => true
  | _ => false

/-- `t` occurs inside `w`, reachable through list elements and dict
values (the positions `encode_payload` traverses). -/
inductive OccursIn : Val → Val → Prop where
  | here (v : Val) : OccursIn v v
  | inList {v x : Val} {xs : List Val} : x ∈ xs → OccursIn v x → OccursIn v (.vlist xs)
  | inDict {v : Val} {kv : String × Val} {kvs : List (String × Val)} :
      kv ∈ kvs → OccursIn v kv.2 → OccursIn v (.vdict kvs)

theorem encodeList_mem {xs xs2 : List Val} (h : encodeList xs = .ok xs2) :
    ∀ x ∈ xs, ∃ x2 ∈ xs2, encode_payload x = .ok x2 := by
  induction xs generalizing xs2 with
  | nil => intro x hx; cases hx
  | cons a rest ih =>
    intro x hx
    simp only [encodeList] at h
    cases h1 : encode_payload a with
    | error e => rw [h1] at h; cases h
    | ok a2 =>
      rw [h1] at h
      cases h2 : encodeList rest with
      | error e => rw [h2] at h; cases h
      | ok rest2 =>
        rw [h2] at h
        cases h
        rcases List.mem_cons.mp hx with hx | hx
        · exact ⟨a2, List.mem_cons_self a2 rest2, hx ▸ h1⟩
        · obtain ⟨x2, hx2, he⟩ := ih h2 x hx
          exact ⟨x2, List.mem_cons_of_mem a2 hx2, he⟩

theorem encodeKVs_mem2 {kvs kvs2 : List (String × Val)} (h : encodeKVs kvs = .ok kvs2) :
    ∀ kv ∈ kvs, ∃ kv2 ∈ kvs2, encode_payload kv.2 = .ok kv2.2 := by
  induction kvs generalizing kvs2 with
  | nil => intro kv hkv; cases hkv
  | cons a rest ih =>
    intro kv hkv
    simp only [encodeKVs] at h
    cases h1 : encode_payload a.2 with
    | error e => rw [h1] at h; cases h
    | ok a2 =>
      rw [h1] at h
      cases h2 : encodeKVs rest with
      | error e => rw [h2] at h; cases h
      | ok rest2 =>
        rw [h2] at h
        cases h
        rcases List.mem_cons.mp hkv with hkv | hkv
        · exact ⟨(a.1, a2), List.mem_cons_self (a.1, a2) rest2, hkv ▸ h1⟩
        · obtain ⟨kv2, hkv2, he⟩ := ih h2 kv hkv
          exact ⟨kv2, List.mem_cons_of_mem (a.1, a2) hkv2, he⟩

/-- Every successfully encoded taggable sub-value yields a dict in the
encoded payload whose key set contains the reserved marker key. -/
theorem encode_marks_taggable :
    ∀ {t w : Val}, OccursIn t w → isTaggableB t = true →
    ∀ {w2 : Val}, encode_payload w = .ok w2 →
    ∃ kvs2, OccursIn (.vdict kvs2) w2 ∧ TYPE_MARKER ∈ kvs2.map Prod.fst := by
  intro t w hocc
  induction hocc with
  | here =>
    intro ht w2 henc
    cases t with
    | vtimedelta d s us =>
      simp only [encode_payload] at henc
      cases henc
      exact ⟨[(TYPE_MARKER, .vstr "timedelta"), ("days", .vint d),
        ("seconds", .vint s), ("microseconds", .vint us)],
        OccursIn.here _, by simp⟩
    | vmodel a m pk =>
      cases pk with
      | none => simp [isTaggableB] at ht
      | some p =>
        simp only [encode_payload] at henc
        cases henc
        exact ⟨[(TYPE_MARKER, .vstr "model"), ("app_label", .vstr a),
          ("model", .vstr m), ("pk", .vstr p)], OccursIn.here _, by simp⟩
    | vnull => simp [isTaggableB] at ht
    | vbool b => simp [isTaggableB] at ht
    | vint n => simp [isTaggableB] at ht
    | vstr s => simp [isTaggableB] at ht
    | vlist xs => simp [isTaggableB] at ht
    | vdict kvs => simp [isTaggableB] at ht
  | inList hmem hsub ih =>
    rename_i x xs
    intro ht w2 henc
    simp only [encode_payload] at henc
    cases hl : encodeList xs with
    | error e => rw [hl] at henc; cases henc
    | ok xs2 =>
      rw [hl] at henc
      cases henc
      obtain ⟨x2, hx2, hex⟩ := encodeList_mem hl _ hmem
      obtain ⟨kvs2, ho, hmark⟩ := ih ht hex
      exact ⟨kvs2, OccursIn.inList hx2 ho, hmark⟩
  | inDict hmem hsub ih =>
    rename_i kv kvs
    intro ht w2 henc
    simp only [encode_payload] at henc
    cases hl : encodeKVs kvs with
    | error e => rw [hl] at henc; cases henc
    | ok kvs2 =>
      rw [hl] at henc
      cases henc
      obtain ⟨kv2, hkv2, hex⟩ := encodeKVs_mem2 hl _ hmem
      obtain ⟨kvs3, ho, hmark⟩ := ih ht hex
      exact ⟨kvs3, OccursIn.inDict hkv2 ho, hmark⟩

/-- C6 fails as stated: the reserved marker key is `__reproq_type__`,
not `__type__` — the encoded timedelta's key set does not contain
`__type__`. -/
theorem C6_counterexample :
    encode_payload (.vtimedelta 1 2 3) = .ok (.vdict [(TYPE_MARKER, .vstr "timedelta"),
      ("days", .vint 1), ("seconds", .vint 2), ("microseconds", .vint 3)])
    ∧ "__type__" ∉ [TYPE_MARKER, "days", "seconds", "microseconds"]
    ∧ TYPE_MARKER ≠ "__type__" :=
  ⟨rfl, by decide, by decide⟩

/-- C6 (amended): values containing a duration or entity reference are
tagged with the reserved marker key `__reproq_type__`: the encoded
timedelta is a mapping whose keys are exactly the marker alongside
days, seconds and microseconds, the encoded model reference carries
the marker alongside app_label, model and pk, and every taggable
sub-value of a successfully encoded payload yields a marker-keyed
mapping in the output. -/
theorem C6_encode_marker (d s us : Int) (a m p : String) {t w w2 : Val}
    (hocc : OccursIn t w) (ht : isTaggableB t = true)
    (henc : encode_payload w = .ok w2) :
    encode_payload (.vtimedelta d s us) = .ok (.vdict [(TYPE_MARKER, .vstr "timedelta"),
      ("days", .vint d), ("seconds", .vint s), ("microseconds", .vint us)])
    ∧ encode_payload (.vmodel a m (some p)) = .ok (.vdict [(TYPE_MARKER, .vstr "model"),
      ("app_label", .vstr a), ("model", .vstr m), ("pk", .vstr p)])
    ∧ TYPE_MARKER = "__reproq_type__"
    ∧ ∃ kvs2, OccursIn (.vdict kvs2) w2 ∧ TYPE_MARKER ∈ kvs2.map Prod.fst :=
  ⟨rfl, rfl, rfl, encode_marks_taggable hocc ht henc⟩

/-- Witness for C6: a timedelta nested inside a list is marked in the
encoded payload. -/
theorem C6_encode_marker_witness :
    encode_payload (.vtimedelta 4 5 6) = .ok (.vdict [(TYPE_MARKER, .vstr "timedelta"),
      ("days", .vint 4), ("seconds", .vint 5), ("microseconds", .vint 6)])
    ∧ encode_payload (.vmodel "app" "m" (some "9")) = .ok (.vdict [(TYPE_MARKER, .vstr "model"),
      ("app_label", .vstr "app"), ("model", .vstr "m"), ("pk", .vstr "9")])
    ∧ TYPE_MARKER = "__reproq_type__"
    ∧ ∃ kvs2, OccursIn (.vdict kvs2)
        (.vlist [.vstr "x", .vdict [(TYPE_MARKER, .vstr "timedelta"), ("days", .vint 1),
          ("seconds", .vint 2), ("microseconds", .vint 3)]])
      ∧ TYPE_MARKER ∈ kvs2.map Prod.fst := by
  have henc : encode_payload (.vlist [.vstr "x", .vtimedelta 1 2 3]) =
      .ok (.vlist [.vstr "x", .vdict [(TYPE_MARKER, .vstr "timedelta"), ("days", .vint 1),
        ("seconds", .vint 2), ("microseconds", .vint 3)]]) := rfl
  exact C6_encode_marker 4 5 6 "app" "m" "9"
    (OccursIn.inList (List.mem_cons_of_mem _ (List.mem_cons_self _ _)) (OccursIn.here _))
    (by decide) henc

/-! ## TaskRun rows and the enqueue path (backend.py)

The `task_runs` table becomes a list of records; `result_id` is the
monotone `BigAutoField` sequence, timestamps are epoch integers. An
error record mirrors the JSON objects appended to `errors_json`
(`atTime` is the `"at"` key).
-/

inductive Status where
  | ready : Status
  | running : Status
  | waiting : Status
  | successful : Status
  | failed : Status
  | cancelled : Status
deriving DecidableEq

structure ErrRec where
  atTime : Int
  kind : String
  message : String
deriving DecidableEq

structure TaskRow where
  result_id : Nat
  queue_name : String
  priority : Int
  run_after : Option Int
  spec_json : Json
  task_path : String
  spec_hash : String
  status : Status
  started_at : Option Int
  last_attempted_at : Option Int
  finished_at : Option Int
  attempts : Nat
  max_attempts : Nat
  timeout_seconds : Nat
  lock_key : Option String
  concurrency_key : Option String
  concurrency_limit : Int
  parent_id : Option Nat
  workflow_id : Option Nat
  wait_count : Nat
  errors_json : List ErrRec
  leased_until : Option Int
  leased_by : Option String
  expires_at : Option Int
  cancel_requested : Bool

structure WorkflowRun where
  workflow_id : Nat
  expected_count : Nat
  success_count : Nat
  failure_count : Nat
  callback_result_id : Nat
  status : String
deriving DecidableEq

/-- One database alias: the `task_runs` and `workflow_runs` tables plus
the id sequence. -/
structure DB where
  rows : List TaskRow
  wfruns : List WorkflowRun
  nextId : Nat

/-- The `run_after` argument accepted by `enqueue`: absent, a
`timedelta`, a `datetime` (aware or naive), or some other type. -/
inductive RunAfterArg where
  | absent : RunAfterArg
  | delta (d : Int) : RunAfterArg
  | dt (t : Int) (aware : Bool) : RunAfterArg
  | other : RunAfterArg

/-- `_normalize_run_after` from `backend.py`: `None` passes through, a
`timedelta` is added to the current time, an aware `datetime` is kept,
a naive one raises `ValueError`, anything else `TypeError`. -/
def _normalize_run_after (now : Int) : RunAfterArg → Except String (Option Int)
  | .absent => .ok none
  | .delta d => .ok (some (now + d))
  | .dt t aware => if aware then .ok (some t) else .error "run_after must be timezone-aware"
  | .other => .error "run_after must be datetime, timedelta, or None"

/-- The backend options and task fields that shape the inserted row
(`options`, the task's queue/priority, and the reserved kwargs already
extracted). -/
structure EnqOpts where
  dedup : Bool
  queueName : String
  taskPath : String
  priority : Int
  lockKey : Option String
  concurrencyKey : Option String
  concurrencyLimit : Int
  maxAttempts : Nat
  timeoutSeconds : Nat
  expiresAt : Option Int

def isActive : Status → Bool
  | .ready => true
  | .running => true
  | _ => false

/-- The dedup SELECT: first row with this `spec_hash` in
`{READY, RUNNING}`. -/
def findActive (db : DB) (h : String) : Option TaskRow :=
  db.rows.find? (fun r => r.spec_hash == h && isActive r.status)

/-- The `READY` row `_try_insert` creates from the normalized spec. -/
def newReadyRow (db : DB) (specNorm : Json) (specHash : String) (runAfter : Option Int)
    (o : EnqOpts) : TaskRow :=
  { result_id := db.nextId, queue_name := o.queueName, priority := o.priority,
    run_after := runAfter, spec_json := specNorm, task_path := o.taskPath,
    spec_hash := specHash, status := .ready, started_at := none,
    last_attempted_at := none, finished_at := none, attempts := 0,
    max_attempts := o.maxAttempts, timeout_seconds := o.timeoutSeconds,
    lock_key := o.lockKey, concurrency_key := o.concurrencyKey,
    concurrency_limit := o.concurrencyLimit, parent_id := none, workflow_id := none,
    wait_count := 0, errors_json := [], leased_until := none, leased_by := none,
    expires_at := o.expiresAt, cancel_requested := false }

/-- `_try_insert`: create a `READY` row from the normalized spec. -/
def tryInsert (db : DB) (specNorm : Json) (specHash : String) (runAfter : Option Int)
    (o : EnqOpts) : Nat × DB :=
  (db.nextId, ⟨db.rows ++ [newReadyRow db specNorm specHash runAfter o], db.wfruns,
    db.nextId + 1⟩)

/-- `ReproqBackend.enqueue` from `backend.py`, sequentially: normalize
`run_after` (validation errors leave the database untouched), hash the
assembled spec, then — with dedup on — return any active row with the
same hash, else insert a `READY` row. The `IntegrityError` retry arm
only fires under concurrent writers and has no sequential analogue. -/
def enqueue (now : Int) (db : DB) (spec : Json) (ra : RunAfterArg) (o : EnqOpts) :
    Except String (Nat × DB) :=
  match _normalize_run_after now ra with
  | .error e => .error e
  | .ok runAfter =>
      let nh := normalize_and_hash spec
      if o.dedup = false then .ok (tryInsert db nh.1 nh.2 runAfter o)
      else
        match findActive db nh.2 with
        | some r => .ok (r.result_id, db)
        | none => .ok (tryInsert db nh.1 nh.2 runAfter o)

/-- Two rows collide on the partial unique index: both in
`{READY, RUNNING}` with the same `spec_hash`. -/
def activeDup (x y : TaskRow) : Prop :=
  isActive x.status = true ∧ isActive y.status = true ∧ x.spec_hash = y.spec_hash

instance : DecidablePred (fun p : TaskRow × TaskRow => activeDup p.1 p.2) := fun p => by
  unfold activeDup
  infer_instance

/-- The invariant enforced by the `task_runs_dedupe_active` partial
unique index (migration 0002). -/
def UniqueActive (db : DB) : Prop :=
  db.rows.Pairwise (fun x y => ¬ activeDup x y)

def countActive (db : DB) (h : String) : Nat :=
  db.rows.countP (fun r => r.spec_hash == h && isActive r.status)

theorem pairwise_eq_of_pred {α : Type} {P : α → Prop} {l : List α}
    (hp : l.Pairwise (fun x y => ¬ (P x ∧ P y))) {a b : α}
    (ha : a ∈ l) (hb : b ∈ l) (hpa : P a) (hpb : P b) : a = b := by
  induction l with
  | nil => cases ha
  | cons c rest ih =>
    rw [List.pairwise_cons] at hp
    rcases List.mem_cons.mp ha with ha2 | ha2 <;> rcases List.mem_cons.mp hb with hb2 | hb2
    · rw [ha2, hb2]
    · exact absurd ⟨ha2 ▸ hpa, hpb⟩ (hp.1 b hb2)
    · exact absurd ⟨hb2 ▸ hpb, hpa⟩ (hp.1 a ha2)
    · exact ih hp.2 ha2 hb2

theorem countP_le_one_of_pairwise {α : Type} {p : α → Bool} {l : List α}
    (hp : l.Pairwise (fun x y => ¬ (p x = true ∧ p y = true))) : l.countP p ≤ 1 := by
  induction l with
  | nil => simp
  | cons c rest ih =>
    rw [List.pairwise_cons] at hp
    by_cases hc : p c = true
    · have hzero : rest.countP p = 0 := by
        rw [List.countP_eq_zero]
        intro x hx
        intro hpx
        exact hp.1 x hx ⟨hc, hpx⟩
      rw [List.countP_cons, hzero]
      simp [hc]
    · rw [List.countP_cons]
      have := ih hp.2
      simp [hc]
      omega

theorem normalize_ok_any_now {now₁ : Int} (now₂ : Int) {ra : RunAfterArg} {v : Option Int}
    (h : _normalize_run_after now₁ ra = .ok v) :
    ∃ v2, _normalize_run_after now₂ ra = .ok v2 := by
  cases ra with
  | absent => exact ⟨none, rfl⟩
  | delta d => exact ⟨some (now₂ + d), rfl⟩
  | dt t aware =>
    cases aware with
    | true => exact ⟨some t, rfl⟩
    | false => simp [_normalize_run_after] at h
  | other => simp [_normalize_run_after] at h

/-- C1: if the row produced by a first successful `enqueue` of spec `S`
is still in `{READY, RUNNING}` (and the partial unique index invariant
holds), a second `enqueue` of `S` dedups to the same `result_id`,
inserts nothing, and at most one row with `S`'s `spec_hash` remains in
`{READY, RUNNING}`. -/
theorem C1_enqueue_idempotent (S : Json) (ra : RunAfterArg) (o : EnqOpts)
    (db₁ db₂ db₁' : DB) (now₁ now₂ : Int) (r₁ : Nat)
    (hded : o.dedup = true)
    (h1 : enqueue now₁ db₁ S ra o = .ok (r₁, db₁'))
    (hstill : ∃ row ∈ db₂.rows, row.result_id = r₁ ∧
      row.spec_hash = spec_hash_for S ∧ isActive row.status = true)
    (hinv : UniqueActive db₂) :
    enqueue now₂ db₂ S ra o = .ok (r₁, db₂) ∧ countActive db₂ (spec_hash_for S) ≤ 1 := by
  obtain ⟨row, hmem, hid, hhash, hact⟩ := hstill
  have hnorm1 : ∃ v, _normalize_run_after now₁ ra = .ok v := by
    cases hn : _normalize_run_after now₁ ra with
    | error e => rw [enqueue, hn] at h1; cases h1
    | ok v => exact ⟨v, rfl⟩
  obtain ⟨v1, hv1⟩ := hnorm1
  obtain ⟨v2, hv2⟩ := normalize_ok_any_now now₂ hv1
  have hP : ∀ x : TaskRow, (x.spec_hash == spec_hash_for S && isActive x.status) = true ↔
      (x.spec_hash = spec_hash_for S ∧ isActive x.status = true) := by
    intro x
    rw [Bool.and_eq_true, beq_iff_eq]
  have hpair : db₂.rows.Pairwise (fun x y =>
      ¬ ((x.spec_hash == spec_hash_for S && isActive x.status) = true ∧
         (y.spec_hash == spec_hash_for S && isActive y.status) = true)) := by
    refine hinv.imp ?_
    intro x y hxy hc
    obtain ⟨hx, hy⟩ := hc
    rw [hP] at hx hy
    exact hxy ⟨hx.2, hy.2, hx.1.trans hy.1.symm⟩
  constructor
  · simp only [enqueue, hv2]
    rw [if_neg (by rw [hded]; intro hc; cases hc)]
    cases hf : findActive db₂ (normalize_and_hash S).2 with
    | none =>
      exfalso
      have hfn := List.find?_eq_none.mp hf row hmem
      have : (row.spec_hash == (normalize_and_hash S).2 && isActive row.status) = true := by
        rw [Bool.and_eq_true, beq_iff_eq]
        exact ⟨hhash, hact⟩
      exact hfn this
    | some r2 =>
      have hpred := List.find?_some hf
      have hmem2 := List.mem_of_find?_eq_some hf
      have heq : r2 = row := by
        refine pairwise_eq_of_pred hpair hmem2 hmem ?_ ?_
        · exact hpred
        · rw [hP]
          exact ⟨hhash, hact⟩
      rw [heq]
      show Except.ok (row.result_id, db₂) = Except.ok (r₁, db₂)
      rw [hid]
  · exact countP_le_one_of_pairwise hpair

def enqDemoOpts : EnqOpts := ⟨true, "default", "pkg.t", 0, none, none, 0, 3, 900, none⟩

def enqDemoDb1 : DB :=
  (tryInsert ⟨[], [], 1⟩ (normalize_json Json.null) (spec_hash_for Json.null) none enqDemoOpts).2

/-- Witness for C1: a concrete first enqueue into an empty table, then
a second enqueue of the same spec. -/
theorem C1_enqueue_idempotent_witness :
    enqueue 7 enqDemoDb1 Json.null .absent enqDemoOpts = .ok (1, enqDemoDb1)
    ∧ countActive enqDemoDb1 (spec_hash_for Json.null) ≤ 1 :=
  C1_enqueue_idempotent Json.null .absent enqDemoOpts ⟨[], [], 1⟩ enqDemoDb1 enqDemoDb1 0 7 1
    rfl rfl ⟨_, List.Mem.head _, rfl, rfl, rfl⟩ (by simp [UniqueActive, enqDemoDb1, tryInsert])

/-- C7: resolution of `run_after` during enqueue — a duration is added
to the current time, an aware datetime is kept, a naive datetime is
rejected with a validation error before any row is created (the
`Except` result carries no new database state), and a missing
`run_after` stores `NULL`. -/
theorem C7_run_after_resolution (now : Int) (db : DB) (spec : Json) (o : EnqOpts)
    (hnofind : findActive db (spec_hash_for spec) = none) :
    (_normalize_run_after now .absent = .ok none)
    ∧ (∀ d, _normalize_run_after now (.delta d) = .ok (some (now + d)))
    ∧ (∀ t, _normalize_run_after now (.dt t true) = .ok (some t))
    ∧ (∀ t, enqueue now db spec (.dt t false) o = .error "run_after must be timezone-aware")
    ∧ (∀ ra raOk, _normalize_run_after now ra = .ok raOk →
        ∃ row, enqueue now db spec ra o = .ok (db.nextId, ⟨db.rows ++ [row], db.wfruns, db.nextId + 1⟩)
          ∧ row.run_after = raOk ∧ row.status = .ready) := by
  refine ⟨rfl, fun d => rfl, fun t => rfl, fun t => rfl, fun ra raOk hra => ?_⟩
  refine ⟨newReadyRow db (normalize_and_hash spec).1 (normalize_and_hash spec).2 raOk o,
    ?_, rfl, rfl⟩
  simp only [enqueue, hra]
  have hnf : findActive db (normalize_and_hash spec).2 = none := hnofind
  cases hd : o.dedup with
  | false => rfl
  | true =>
    rw [if_neg (fun hc => Bool.noConfusion hc), hnf]
    rfl

/-- Witness for C7 on an empty table. -/
theorem C7_run_after_resolution_witness :
    (_normalize_run_after 10 .absent = .ok none)
    ∧ (∀ d, _normalize_run_after 10 (.delta d) = .ok (some (10 + d)))
    ∧ (∀ t, _normalize_run_after 10 (.dt t true) = .ok (some t))
    ∧ (∀ t, enqueue 10 ⟨[], [], 1⟩ Json.null (.dt t false) enqDemoOpts =
        .error "run_after must be timezone-aware")
    ∧ (∀ ra raOk, _normalize_run_after 10 ra = .ok raOk →
        ∃ row, enqueue 10 ⟨[], [], 1⟩ Json.null ra enqDemoOpts =
            .ok (1, ⟨[row], [], 2⟩)
          ∧ row.run_after = raOk ∧ row.status = .ready) :=
  C7_run_after_resolution 10 ⟨[], [], 1⟩ Json.null enqDemoOpts rfl

/-! ## Reclaim (management command `reproq reclaim`)

`Command.run_reclaim` from `management/commands/reproq.py`, restricted
to `--limit 0` (no limit) and a live run. `--older-than` is the parsed
duration in seconds; the cutoff is `now - older_than`.
-/

structure ReclaimOpts where
  olderThan : Int
  includeNullLease : Bool

/-- The reclaim queryset filter: `status = RUNNING`,
`cancel_requested = FALSE`, and lease expired before the cutoff (or
absent with `--include-null-lease`). -/
def reclaimMatches (now : Int) (o : ReclaimOpts) (r : TaskRow) : Bool :=
  r.status == .running && !r.cancel_requested &&
    (match r.leased_until with
     | some t => decide (t < now - o.olderThan)
     | none => o.includeNullLease)

/-- `run_reclaim` with `--action requeue` (the default): one bulk
UPDATE setting `status = READY`, `run_after = now` and clearing
`leased_until`, `leased_by`, `started_at`, `finished_at`. No error
record is written on this path. -/
def run_reclaim_requeue (now : Int) (o : ReclaimOpts) (db : DB) : DB :=
  { db with
          rows := db.rows.map (fun r =>
          if reclaimMatches now o r then
          { r with
          status := .ready, run_after := some now, leased_until := none,
          leased_by := none, started_at := none, finished_at := none }
          else r) }

/-- `run_reclaim` with `--action fail`: each matching row becomes
`FAILED` with `finished_at = last_attempted_at = now`, the lease
cleared, and an error record of kind `"reclaim"` appended. -/
def run_reclaim_fail (now : Int) (o : ReclaimOpts) (db : DB) : DB :=
  { db with
          rows := db.rows.map (fun r =>
          if reclaimMatches now o r then
          { r with
          status := .failed, finished_at := some now, last_attempted_at := some now,
          leased_until := none, leased_by := none,
          errors_json := r.errors_json ++
          [⟨now, "reclaim", "Lease expired; marking task failed."⟩] }
          else r) }

/-- A demonstration RUNNING row with an expired lease. -/
def expiredRow (attempts maxAttempts : Nat) : TaskRow :=
  { result_id := 1, queue_name := "default", priority := 0, run_after := none,
    spec_json := Json.null, task_path := "pkg.t", spec_hash := "h", status := .running,
    started_at := some (-10), last_attempted_at := some (-10), finished_at := none,
    attempts := attempts, max_attempts := maxAttempts, timeout_seconds := 900,
    lock_key := none, concurrency_key := none, concurrency_limit := 0, parent_id := none,
    workflow_id := none, wait_count := 0, errors_json := [], leased_until := some (-1),
    leased_by := some "w1", expires_at := none, cancel_requested := false }

/-- C2 fails as stated: the requeue action performs a bulk UPDATE and
never touches `errors_json`, so no `lease_expired` (or any) error
record is appended. The matching row does become `READY` with
`run_after = now` and a cleared lease. -/
theorem C2_counterexample :
    reclaimMatches 0 ⟨0, false⟩ (expiredRow 1 3) = true
    ∧ (run_reclaim_requeue 0 ⟨0, false⟩ ⟨[expiredRow 1 3], [], 2⟩).rows.map
        (fun r => r.status) = [Status.ready]
    ∧ (run_reclaim_requeue 0 ⟨0, false⟩ ⟨[expiredRow 1 3], [], 2⟩).rows.map
        (fun r => r.errors_json) = [[]]
    ∧ ¬ (run_reclaim_requeue 0 ⟨0, false⟩ ⟨[expiredRow 1 3], [], 2⟩).rows.any
        (fun r => r.errors_json.any (fun e => e.kind == "lease_expired")) :=
  ⟨by decide, by decide, by decide, by decide⟩

/-- C2 (amended): for every RUNNING row with `cancel_requested = FALSE`
and an expired lease, reclaim with `action = requeue` sets
`status = READY`, `run_after = now`, clears `leased_until`,
`leased_by`, `started_at` and `finished_at` — and leaves the row's
`errors_json` unchanged (no error record is appended on this path). -/
theorem C2_reclaim_requeue (now olderThan : Int) (incNull : Bool) (db : DB) (r : TaskRow)
    (hmem : r ∈ db.rows) (hmatch : reclaimMatches now ⟨olderThan, incNull⟩ r = true) :
    { r with
          status := .ready, run_after := some now, leased_until := none,
          leased_by := none, started_at := none, finished_at := none }
      ∈ (run_reclaim_requeue now ⟨olderThan, incNull⟩ db).rows
    ∧ ({ r with
          status := .ready, run_after := some now, leased_until := none,
          leased_by := none, started_at := none, finished_at := none } : TaskRow).errors_json
        = r.errors_json := by
  constructor
  · refine List.mem_map.mpr ⟨r, hmem, ?_⟩
    show (if reclaimMatches now ⟨olderThan, incNull⟩ r = true then _ else r) = _
    rw [if_pos hmatch]
  · rfl

/-- Witness for the amended C2 at the demonstration row. -/
theorem C2_reclaim_requeue_witness :
    { expiredRow 1 3 with
          status := .ready, run_after := some (0 : Int),
          leased_until := none, leased_by := none, started_at := none, finished_at := none }
      ∈ (run_reclaim_requeue 0 ⟨0, false⟩ ⟨[expiredRow 1 3], [], 2⟩).rows
    ∧ ({ expiredRow 1 3 with
          status := .ready, run_after := some (0 : Int),
          leased_until := none, leased_by := none, started_at := none,
          finished_at := none } : TaskRow).errors_json = (expiredRow 1 3).errors_json :=
  C2_reclaim_requeue 0 0 false ⟨[expiredRow 1 3], [], 2⟩ (expiredRow 1 3)
    (List.Mem.head _) (by decide)

/-- C3 fails as stated: the reclaim action is chosen solely by the
operator's `--action` flag (default `requeue`), not by comparing
`attempts` to `max_attempts` — a RUNNING row with an expired lease and
`attempts = max_attempts = 3` is requeued to `READY`, not failed. -/
theorem C3_counterexample :
    (expiredRow 3 3).attempts ≥ (expiredRow 3 3).max_attempts
    ∧ reclaimMatches 0 ⟨0, false⟩ (expiredRow 3 3) = true
    ∧ (run_reclaim_requeue 0 ⟨0, false⟩ ⟨[expiredRow 3 3], [], 2⟩).rows.map
        (fun r => r.status) = [Status.ready] :=
  ⟨by decide, by decide, by decide⟩

/-- C3 (amended): for every RUNNING row with `cancel_requested = FALSE`
and an expired lease — regardless of its `attempts` count — reclaim
with `action = fail` sets `status = FAILED`, sets `finished_at` and
`last_attempted_at` to now, clears the lease, and appends an error
record of kind `"reclaim"`; the action is selected by the operator,
not by `attempts ≥ max_attempts`. -/
theorem C3_reclaim_fail (now olderThan : Int) (incNull : Bool) (db : DB) (r : TaskRow)
    (hmem : r ∈ db.rows) (hmatch : reclaimMatches now ⟨olderThan, incNull⟩ r = true) :
    { r with
          status := .failed, finished_at := some now, last_attempted_at := some now,
          leased_until := none, leased_by := none,
          errors_json := r.errors_json ++
          [⟨now, "reclaim", "Lease expired; marking task failed."⟩] }
      ∈ (run_reclaim_fail now ⟨olderThan, incNull⟩ db).rows := by
  refine List.mem_map.mpr ⟨r, hmem, ?_⟩
  show (if reclaimMatches now ⟨olderThan, incNull⟩ r = true then _ else r) = _
  rw [if_pos hmatch]

/-- Witness for the amended C3 at the demonstration row. -/
theorem C3_reclaim_fail_witness :
    { expiredRow 3 3 with
          status := .failed, finished_at := some (0 : Int),
          last_attempted_at := some (0 : Int), leased_until := none, leased_by := none,
          errors_json := (expiredRow 3 3).errors_json ++
          [⟨0, "reclaim", "Lease expired; marking task failed."⟩] }
      ∈ (run_reclaim_fail 0 ⟨0, false⟩ ⟨[expiredRow 3 3], [], 2⟩).rows :=
  C3_reclaim_fail 0 0 false ⟨[expiredRow 3 3], [], 2⟩ (expiredRow 3 3)
    (List.Mem.head _) (by decide)

/-! ## Chord.enqueue (workflows.py)

`Chord.enqueue` inserts one `READY` row per predecessor task, a
callback row, and one `WorkflowRun` record. A task contributes the
fields of its `TaskRun.objects.create(...)` call; `spec_hash` is a
fresh `uuid4().hex` string, modelled as a supply indexed by the row
id ("workflows bypass simple dedupe"). All rows target one database
alias (`enqueue` raises otherwise; the single-alias model keeps them
together by construction).
-/

structure TaskSpec where
  task_path : String
  queue_name : String
  priority : Int
  maxAttempts : Nat
  timeoutSeconds : Nat
  lockKey : Option String
  concurrencyKey : Option String
  concurrencyLimit : Int

/-- A predecessor row: `status = "READY"`, shared `workflow_id`,
`wait_count = 0`. -/
def chordPredRow (id : Nat) (wid : Nat) (t : TaskSpec) (hash : String) : TaskRow :=
  { result_id := id, queue_name := t.queue_name, priority := t.priority, run_after := none,
    spec_json := Json.null, task_path := t.task_path, spec_hash := hash, status := .ready,
    started_at := none, last_attempted_at := none, finished_at := none, attempts := 0,
    max_attempts := t.maxAttempts, timeout_seconds := t.timeoutSeconds,
    lock_key := t.lockKey, concurrency_key := t.concurrencyKey,
    concurrency_limit := t.concurrencyLimit, parent_id := none, workflow_id := some wid,
    wait_count := 0, errors_json := [], leased_until := none, leased_by := none,
    expires_at := none, cancel_requested := false }

/-- The callback row: `wait_count = len(results)`, `WAITING` unless the
chord has no predecessors. -/
def chordCbRow (id : Nat) (wid : Nat) (t : TaskSpec) (wc : Nat) (st : Status)
    (hash : String) : TaskRow :=
  { chordPredRow id wid t hash with
      status := st, wait_count := wc }

/-- One iteration of the predecessor loop in `Chord.enqueue`. -/
def chordStep (uuid : Nat → String) (wid : Nat) (acc : DB × List Nat) (t : TaskSpec) :
    DB × List Nat :=
  let db := acc.1
  let id := db.nextId
  (⟨db.rows ++ [chordPredRow id wid t (uuid id)], db.wfruns, id + 1⟩, acc.2 ++ [id])

/-- `Chord.enqueue` from `workflows.py`: insert the predecessors, then
the callback, then the `WorkflowRun` record. Returns the new database,
the predecessor ids, and the callback id. -/
def chord_enqueue (uuid : Nat → String) (wid : Nat) (db : DB) (preds : List TaskSpec)
    (cb : TaskSpec) : DB × List Nat × Nat :=
  let folded := preds.foldl (chordStep uuid wid) (db, [])
  let db1 := folded.1
  let ids := folded.2
  let wc := ids.length
  let cbStatus : Status := if wc == 0 then .ready else .waiting
  let wfStatus : String := if wc == 0 then "WAITING_CALLBACK" else "RUNNING"
  let cbId := db1.nextId
  let db2 : DB := ⟨db1.rows ++ [chordCbRow cbId wid cb wc cbStatus (uuid cbId)],
    db1.wfruns ++ [⟨wid, wc, 0, 0, cbId, wfStatus⟩], cbId + 1⟩
  (db2, ids, cbId)

/-- Invariant of the predecessor fold: ids extend the accumulator, one
`READY` row with the shared `workflow_id` exists per new id, previous
rows persist, and `wfruns` is untouched. -/
theorem chord_fold_spec (uuid : Nat → String) (wid : Nat) :
    ∀ (preds : List TaskSpec) (db : DB) (acc : List Nat),
    ∃ tail,
      (preds.foldl (chordStep uuid wid) (db, acc)).2 = acc ++ tail
      ∧ tail.length = preds.length
      ∧ (preds.foldl (chordStep uuid wid) (db, acc)).1.wfruns = db.wfruns
      ∧ (∀ row ∈ db.rows, row ∈ (preds.foldl (chordStep uuid wid) (db, acc)).1.rows)
      ∧ (∀ i ∈ tail, ∃ row ∈ (preds.foldl (chordStep uuid wid) (db, acc)).1.rows,
          row.result_id = i ∧ row.status = .ready ∧ row.workflow_id = some wid
          ∧ row.wait_count = 0) := by
  intro preds
  induction preds with
  | nil =>
    intro db acc
    exact ⟨[], by simp, rfl, rfl, fun row h => h, fun i hi => absurd hi (List.not_mem_nil i)⟩
  | cons t rest ih =>
    intro db acc
    obtain ⟨tail, hids, hlen, hwf, hmono, hrows⟩ :=
      ih ⟨db.rows ++ [chordPredRow db.nextId wid t (uuid db.nextId)], db.wfruns,
        db.nextId + 1⟩ (acc ++ [db.nextId])
    refine ⟨db.nextId :: tail, ?_, ?_, ?_, ?_, ?_⟩
    · show (rest.foldl (chordStep uuid wid)
        (⟨db.rows ++ [chordPredRow db.nextId wid t (uuid db.nextId)], db.wfruns,
          db.nextId + 1⟩, acc ++ [db.nextId])).2 = acc ++ (db.nextId :: tail)
      rw [hids, List.append_assoc]
      rfl
    · simp [hlen]
    · exact hwf
    · intro row hrow
      exact hmono row (List.mem_append_left _ hrow)
    · intro i hi
      rcases List.mem_cons.mp hi with hi | hi
      · refine ⟨chordPredRow db.nextId wid t (uuid db.nextId), ?_, by subst hi; rfl, rfl, rfl, rfl⟩
        exact hmono _ (List.mem_append_right _ (List.Mem.head _))
      · exact hrows i hi

/-- C5: `Chord.enqueue` with `N ≥ 1` predecessors inserts the `N`
predecessors `READY` under one `workflow_id`, the callback `WAITING`
with `wait_count = N`, and a `WorkflowRun` with `expected_count = N`,
zero counters and `callback_result_id` equal to the callback row's id. -/
theorem C5_chord_enqueue (uuid : Nat → String) (wid : Nat) (db : DB)
    (preds : List TaskSpec) (cb : TaskSpec) (hne : preds ≠ []) :
    (chord_enqueue uuid wid db preds cb).2.1.length = preds.length
    ∧ (∀ i ∈ (chord_enqueue uuid wid db preds cb).2.1,
        ∃ row ∈ (chord_enqueue uuid wid db preds cb).1.rows,
          row.result_id = i ∧ row.status = .ready ∧ row.workflow_id = some wid)
    ∧ (∃ rcb ∈ (chord_enqueue uuid wid db preds cb).1.rows,
        rcb.result_id = (chord_enqueue uuid wid db preds cb).2.2
        ∧ rcb.status = .waiting ∧ rcb.wait_count = preds.length
        ∧ rcb.workflow_id = some wid)
    ∧ (∃ wf ∈ (chord_enqueue uuid wid db preds cb).1.wfruns,
        wf.workflow_id = wid ∧ wf.expected_count = preds.length
        ∧ wf.success_count = 0 ∧ wf.failure_count = 0
        ∧ wf.callback_result_id = (chord_enqueue uuid wid db preds cb).2.2) := by
  obtain ⟨tail, hids, hlen, hwf, hmono, hrows⟩ := chord_fold_spec uuid wid preds db []
  have hids2 : (preds.foldl (chordStep uuid wid) (db, [])).2 = tail := by
    rw [hids]
    rfl
  have hwcne : tail.length ≠ 0 := by
    rw [hlen]
    intro hc
    exact hne (List.length_eq_zero.mp hc)
  have hbeq : (tail.length == 0) = false := by
    rw [beq_eq_false_iff_ne]
    exact hwcne
  refine ⟨?_, ?_, ?_, ?_⟩
  · show (preds.foldl (chordStep uuid wid) (db, [])).2.length = preds.length
    rw [hids2, hlen]
  · intro i hi
    rw [show (chord_enqueue uuid wid db preds cb).2.1 =
      (preds.foldl (chordStep uuid wid) (db, [])).2 from rfl, hids2] at hi
    obtain ⟨row, hrowmem, hprops⟩ := hrows i hi
    exact ⟨row, List.mem_append_left _ hrowmem, hprops.1, hprops.2.1, hprops.2.2.1⟩
  · refine ⟨chordCbRow (preds.foldl (chordStep uuid wid) (db, [])).1.nextId wid cb
      (preds.foldl (chordStep uuid wid) (db, [])).2.length
      (if (preds.foldl (chordStep uuid wid) (db, [])).2.length == 0 then .ready else .waiting)
      (uuid (preds.foldl (chordStep uuid wid) (db, [])).1.nextId), ?_, rfl, ?_, ?_, rfl⟩
    · exact List.mem_append_right _ (List.Mem.head _)
    · show (if (preds.foldl (chordStep uuid wid) (db, [])).2.length == 0 then
        Status.ready else Status.waiting) = Status.waiting
      rw [hids2, hbeq]
      rfl
    · show (preds.foldl (chordStep uuid wid) (db, [])).2.length = preds.length
      rw [hids2, hlen]
  · refine ⟨⟨wid, (preds.foldl (chordStep uuid wid) (db, [])).2.length, 0, 0,
      (preds.foldl (chordStep uuid wid) (db, [])).1.nextId,
      if (preds.foldl (chordStep uuid wid) (db, [])).2.length == 0 then
        "WAITING_CALLBACK" else "RUNNING"⟩, ?_, rfl, ?_, rfl, rfl, rfl⟩
    · exact List.mem_append_right _ (List.Mem.head _)
    · show (preds.foldl (chordStep uuid wid) (db, [])).2.length = preds.length
      rw [hids2, hlen]

def demoSpec : TaskSpec := ⟨"pkg.t", "default", 0, 3, 900, none, none, 0⟩

/-- Witness for C5: a two-predecessor chord into an empty database. -/
theorem C5_chord_enqueue_witness :
    (chord_enqueue (fun n => toString n) 99 ⟨[], [], 1⟩ [demoSpec, demoSpec] demoSpec).2.1.length = 2
    ∧ (∀ i ∈ (chord_enqueue (fun n => toString n) 99 ⟨[], [], 1⟩ [demoSpec, demoSpec] demoSpec).2.1,
        ∃ row ∈ (chord_enqueue (fun n => toString n) 99 ⟨[], [], 1⟩ [demoSpec, demoSpec] demoSpec).1.rows,
          row.result_id = i ∧ row.status = .ready ∧ row.workflow_id = some 99)
    ∧ (∃ rcb ∈ (chord_enqueue (fun n => toString n) 99 ⟨[], [], 1⟩ [demoSpec, demoSpec] demoSpec).1.rows,
        rcb.result_id = (chord_enqueue (fun n => toString n) 99 ⟨[], [], 1⟩ [demoSpec, demoSpec] demoSpec).2.2
        ∧ rcb.status = .waiting ∧ rcb.wait_count = 2
        ∧ rcb.workflow_id = some 99)
    ∧ (∃ wf ∈ (chord_enqueue (fun n => toString n) 99 ⟨[], [], 1⟩ [demoSpec, demoSpec] demoSpec).1.wfruns,
        wf.workflow_id = 99 ∧ wf.expected_count = 2
        ∧ wf.success_count = 0 ∧ wf.failure_count = 0
        ∧ wf.callback_result_id = (chord_enqueue (fun n => toString n) 99 ⟨[], [], 1⟩ [demoSpec, demoSpec] demoSpec).2.2) :=
  C5_chord_enqueue (fun n => toString n) 99 ⟨[], [], 1⟩ [demoSpec, demoSpec] demoSpec
    (List.cons_ne_nil demoSpec [demoSpec])

end Reproq
